import Mathlib

/-!
Verification of the WarpTrace anomaly detection engine
(`src/backend/anomaly.py`) against its natural-language specification.

The engine is shallowly embedded: Python values appearing in finding
metadata are modelled by the inductive type `PyVal`; machine reals
(Python floats) are modelled by exact rationals `Rat` (all threshold
comparisons in the source happen at exactly representable points for
realistic batch sizes); `datetime` objects are modelled by wall-clock
seconds together with an optional UTC offset (`DateTime`), which is
enough to express ordering, subtraction, minute/hour arithmetic and the
tz-aware/naive distinction that Python's comparison semantics depend on.
Fallible code paths return `Option`/`Except`.
-/

namespace WarpTrace

/-! ## Python values

`PyVal` models the heterogeneous Python values that occur in finding
metadata and in `_freeze`'s domain: `None`, ints, floats (as exact
rationals), strings, lists, sets and string-keyed dicts.  In the frozen
(canonicalized) world produced by `_freeze`, Python tuples are modelled
by `plist` as well: `_freeze` maps dicts, sets and lists all onto
tuples, and a dict entry `(k, v)` is modelled as `plist [pstr k, v]`,
mirroring the collisions Python's representation itself has. -/

inductive PyVal where
  | pnone
  | pint (n : Int)
  | prat (q : Rat)
  | pstr (s : String)
  | plist (l : List PyVal)
  | pset (l : List PyVal)
  | pdict (l : List (String × PyVal))

namespace PyVal

mutual
def decEqV : (a b : PyVal) → Decidable (a = b)
  | .pnone, .pnone => .isTrue rfl
  | .pint a, .pint b =>
      match decEq a b with
      | .isTrue h => .isTrue (by rw [h])
      | .isFalse h => .isFalse (by intro hh; cases hh; exact h rfl)
  | .prat a, .prat b =>
      match decEq a b with
      | .isTrue h => .isTrue (by rw [h])
      | .isFalse h => .isFalse (by intro hh; cases hh; exact h rfl)
  | .pstr a, .pstr b =>
      match decEq a b with
      | .isTrue h => .isTrue (by rw [h])
      | .isFalse h => .isFalse (by intro hh; cases hh; exact h rfl)
  | .plist a, .plist b =>
      match decEqL a b with
      | .isTrue h => .isTrue (by rw [h])
      | .isFalse h => .isFalse (by intro hh; cases hh; exact h rfl)
  | .pset a, .pset b =>
      match decEqL a b with
      | .isTrue h => .isTrue (by rw [h])
      | .isFalse h => .isFalse (by intro hh; cases hh; exact h rfl)
  | .pdict a, .pdict b =>
      match decEqKV a b with
      | .isTrue h => .isTrue (by rw [h])
      | .isFalse h => .isFalse (by intro hh; cases hh; exact h rfl)
  | .pnone, .pint _ => .isFalse (by intro h; cases h)
  | .pnone, .prat _ => .isFalse (by intro h; cases h)
  | .pnone, .pstr _ => .isFalse (by intro h; cases h)
  | .pnone, .plist _ => .isFalse (by intro h; cases h)
  | .pnone, .pset _ => .isFalse (by intro h; cases h)
  | .pnone, .pdict _ => .isFalse (by intro h; cases h)
  | .pint _, .pnone => .isFalse (by intro h; cases h)
  | .pint _, .prat _ => .isFalse (by intro h; cases h)
  | .pint _, .pstr _ => .isFalse (by intro h; cases h)
  | .pint _, .plist _ => .isFalse (by intro h; cases h)
  | .pint _, .pset _ => .isFalse (by intro h; cases h)
  | .pint _, .pdict _ => .isFalse (by intro h; cases h)
  | .prat _, .pnone => .isFalse (by intro h; cases h)
  | .prat _, .pint _ => .isFalse (by intro h; cases h)
  | .prat _, .pstr _ => .isFalse (by intro h; cases h)
  | .prat _, .plist _ => .isFalse (by intro h; cases h)
  | .prat _, .pset _ => .isFalse (by intro h; cases h)
  | .prat _, .pdict _ => .isFalse (by intro h; cases h)
  | .pstr _, .pnone => .isFalse (by intro h; cases h)
  | .pstr _, .pint _ => .isFalse (by intro h; cases h)
  | .pstr _, .prat _ => .isFalse (by intro h; cases h)
  | .pstr _, .plist _ => .isFalse (by intro h; cases h)
  | .pstr _, .pset _ => .isFalse (by intro h; cases h)
  | .pstr _, .pdict _ => .isFalse (by intro h; cases h)
  | .plist _, .pnone => .isFalse (by intro h; cases h)
  | .plist _, .pint _ => .isFalse (by intro h; cases h)
  | .plist _, .prat _ => .isFalse (by intro h; cases h)
  | .plist _, .pstr _ => .isFalse (by intro h; cases h)
  | .plist _, .pset _ => .isFalse (by intro h; cases h)
  | .plist _, .pdict _ => .isFalse (by intro h; cases h)
  | .pset _, .pnone => .isFalse (by intro h; cases h)
  | .pset _, .pint _ => .isFalse (by intro h; cases h)
  | .pset _, .prat _ => .isFalse (by intro h; cases h)
  | .pset _, .pstr _ => .isFalse (by intro h; cases h)
  | .pset _, .plist _ => .isFalse (by intro h; cases h)
  | .pset _, .pdict _ => .isFalse (by intro h; cases h)
  | .pdict _, .pnone => .isFalse (by intro h; cases h)
  | .pdict _, .pint _ => .isFalse (by intro h; cases h)
  | .pdict _, .prat _ => .isFalse (by intro h; cases h)
  | .pdict _, .pstr _ => .isFalse (by intro h; cases h)
  | .pdict _, .plist _ => .isFalse (by intro h; cases h)
  | .pdict _, .pset _ => .isFalse (by intro h; cases h)
def decEqL : (a b : List PyVal) → Decidable (a = b)
  | [], [] => .isTrue rfl
  | [], _ :: _ => .isFalse (by intro h; cases h)
  | _ :: _, [] => .isFalse (by intro h; cases h)
  | a :: as, b :: bs =>
      match decEqV a b, decEqL as bs with
      | .isTrue h1, .isTrue h2 => .isTrue (by rw [h1, h2])
      | .isFalse h1, _ => .isFalse (by intro hh; cases hh; exact h1 rfl)
      | _, .isFalse h2 => .isFalse (by intro hh; cases hh; exact h2 rfl)
def decEqKV : (a b : List (String × PyVal)) → Decidable (a = b)
  | [], [] => .isTrue rfl
  | [], _ :: _ => .isFalse (by intro h; cases h)
  | _ :: _, [] => .isFalse (by intro h; cases h)
  | (k1, v1) :: as, (k2, v2) :: bs =>
      match decEq k1 k2, decEqV v1 v2, decEqKV as bs with
      | .isTrue h0, .isTrue h1, .isTrue h2 => .isTrue (by rw [h0, h1, h2])
      | .isFalse h0, _, _ => .isFalse (by intro hh; cases hh; exact h0 rfl)
      | _, .isFalse h1, _ => .isFalse (by intro hh; cases hh; exact h1 rfl)
      | _, _, .isFalse h2 => .isFalse (by intro hh; cases hh; exact h2 rfl)
end

instance : DecidableEq PyVal := decEqV

/-- Constructor rank, used to totalize comparison across constructors.
Python would raise `TypeError` when ordering most heterogeneous values;
the engine only ever sorts homogeneous frozen values (dict entries keyed
by strings, and — defensively — set elements), so the cross-rank branch
is never semantically relevant; it is included only to keep the
comparator total. -/
def rank : PyVal → Nat
  | .pnone => 0
  | .pint _ => 1
  | .prat _ => 2
  | .pstr _ => 3
  | .plist _ => 4
  | .pset _ => 5
  | .pdict _ => 6

end PyVal

/-- Three-way comparison from equality and strict order. -/
def cmp3 {α : Type _} [DecidableEq α] [LT α]
    [DecidableRel (fun a b : α => a < b)] (a b : α) : Ordering :=
  if a = b then .eq else if a < b then .lt else .gt

/-- Lexicographic order on character lists by code point (Python's
string `<`). -/
def charsLt : List Char → List Char → Bool
  | [], [] => false
  | [], _ :: _ => true
  | _ :: _, [] => false
  | a :: as, b :: bs =>
      decide (a.toNat < b.toNat) || (decide (a = b) && charsLt as bs)

/-- Python string `<`. -/
def strLt (a b : String) : Bool := charsLt a.data b.data

/-- Three-way comparison of strings built from `strLt` (kept separate
from `cmp3` so that it reduces inside the kernel). -/
def cmp3s (a b : String) : Ordering :=
  if a = b then .eq else if strLt a b then .lt else .gt

mutual
/-- Comparison of (frozen) Python values, mirroring Python's `<` where
Python defines it: numerically on ints/floats (cross-type included),
lexicographically on strings and on tuples (`plist`). -/
def fcmp : PyVal → PyVal → Ordering
  | .pint a, .pint b => cmp3 a b
  | .prat a, .prat b => cmp3 a b
  | .pint a, .prat b => cmp3 (a : Rat) b
  | .prat a, .pint b => cmp3 a (b : Rat)
  | .pstr a, .pstr b => cmp3s a b
  | .plist a, .plist b => fcmpL a b
  | a, b => cmp3 a.rank b.rank
def fcmpL : List PyVal → List PyVal → Ordering
  | [], [] => .eq
  | [], _ :: _ => .lt
  | _ :: _, [] => .gt
  | a :: as, b :: bs => (fcmp a b).then (fcmpL as bs)
end

/-- `a ≤ b` as a Boolean, from `fcmp`. -/
def fle (a b : PyVal) : Bool := fcmp a b ≠ .gt

/-- Stable insertion into a sorted list: the new element goes after any
element it compares less-or-equal with, matching the stability of
Python's `sorted`. -/
def insSorted (le : α → α → Bool) (x : α) : List α → List α
  | [] => [x]
  | y :: ys => if le y x then y :: insSorted le x ys else x :: y :: ys

/-- Stable sort by repeated insertion (models Python's stable `sorted`). -/
def isort (le : α → α → Bool) (l : List α) : List α :=
  l.foldl (fun acc x => insSorted le x acc) []

mutual
/-- The function `_freeze` (anomaly.py lines 29-37): make nested
dict/list/set hashable for de-duplication keys.  Dicts become tuples of
`(key, value)` pairs sorted by Python tuple order (equivalently by key,
since dict keys are distinct); sets become sorted tuples; lists and
tuples become tuples with element order preserved; atoms are returned
unchanged. -/
def freeze : PyVal → PyVal
  | .pnone => .pnone
  | .pint n => .pint n
  | .prat q => .prat q
  | .pstr s => .pstr s
  | .plist l => .plist (freezeL l)
  | .pset l => .plist (isort fle (freezeL l))
  | .pdict l => .plist (isort fle (freezeKV l))
def freezeL : List PyVal → List PyVal
  | [] => []
  | v :: rest => freeze v :: freezeL rest
def freezeKV : List (String × PyVal) → List PyVal
  | [] => []
  | (k, v) :: rest => .plist [.pstr k, freeze v] :: freezeKV rest
end

/-! ## String helpers (Python `in`, `split`, `strip`) -/

/-- Python substring containment `pat in s` over character lists. -/
def containsChars : List Char → List Char → Bool
  | [], pat => pat.isEmpty
  | c :: t, pat => pat.isPrefixOf (c :: t) || containsChars t pat

/-- Python `pat in s` for strings. -/
def pyContains (s pat : String) : Bool := containsChars s.data pat.data

/-- Characters after the first occurrence of `pat`
(Python `s.split(pat, 1)[1]`); `none` when `pat` does not occur. -/
def afterFirst : List Char → List Char → Option (List Char)
  | [], pat => if pat.isEmpty then some [] else none
  | c :: t, pat =>
      if pat.isPrefixOf (c :: t) then some ((c :: t).drop pat.length)
      else afterFirst t pat

/-- Worker for Python `s.split()`: accumulate the current token
(reversed) and cut at whitespace, dropping empty tokens. -/
def splitWsGo : List Char → List Char → List String
  | [], acc => if acc.isEmpty then [] else [⟨acc.reverse⟩]
  | c :: rest, acc =>
      if c.isWhitespace then
        if acc.isEmpty then splitWsGo rest []
        else ⟨acc.reverse⟩ :: splitWsGo rest []
      else splitWsGo rest (c :: acc)

/-- Python `s.split()`: split on whitespace runs, dropping empties. -/
def pySplitWs (s : String) : List String := splitWsGo s.data []

/-- Python `s.strip()` over characters. -/
def pyStripChars (l : List Char) : List Char :=
  ((l.dropWhile Char.isWhitespace).reverse.dropWhile Char.isWhitespace).reverse

/-- Python `s.strip()` on a string. -/
def pyStripStr (s : String) : String := ⟨pyStripChars s.data⟩

/-- Python `s.lower()` (ASCII case folding, which covers the engine's
vocabulary and log fields). -/
def pyLower (s : String) : String := ⟨s.data.map Char.toLower⟩

/-- Python `s.strip(" ;,")`: remove the given punctuation from both ends. -/
def stripPunct (s : String) : String :=
  let bad := fun c => c = ' ' ∨ c = ';' ∨ c = ','
  ⟨(s.data.dropWhile (fun c => decide (bad c))).reverse.dropWhile
      (fun c => decide (bad c)) |>.reverse⟩

/-! ## Integer and float parsing (`int(x)`, `float(x)`)

`parsePyInt` models CPython `int(str)`: surrounding whitespace is
ignored, an optional single sign is allowed, and the body must be a
nonempty digit sequence in which single underscores may separate digit
groups. -/

/-- Value of a digit body after its first digit: digits, with single
underscores allowed only between digits. -/
def digitsVal (acc : Nat) : List Char → Option Nat
  | [] => some acc
  | c :: rest =>
      if c.isDigit then digitsVal (10 * acc + (c.toNat - 48)) rest
      else if c = '_' then
        match rest with
        | d :: rest2 =>
            if d.isDigit then digitsVal (10 * acc + (d.toNat - 48)) rest2
            else none
        | [] => none
      else none

/-- Parse an unsigned digit body (nonempty, starts with a digit). -/
def parseDigitBody : List Char → Option Nat
  | [] => none
  | c :: rest => if c.isDigit then digitsVal (c.toNat - 48) rest else none

/-- Signed integer literal over characters: an optional single sign
followed by a digit body. -/
def parseSigned : List Char → Option Int
  | '-' :: rest => (parseDigitBody rest).map (fun n => -(n : Int))
  | '+' :: rest => (parseDigitBody rest).map (fun n => (n : Int))
  | l => (parseDigitBody l).map (fun n => (n : Int))

/-- CPython `int(s)` on a string: `none` models a raised `ValueError`. -/
def parsePyInt (s : String) : Option Int := parseSigned (pyStripChars s.data)

/-- Fractional value of decimal digit chars (no underscores, as in the
simple decimal fractions the logs carry). -/
def fracVal (acc : Rat) (scale : Rat) : List Char → Option Rat
  | [] => some acc
  | c :: rest =>
      if c.isDigit then
        fracVal (acc + scale * ((c.toNat - 48 : Nat) : Rat)) (scale / 10) rest
      else none

/-- CPython `float(s)` restricted to finite plain decimals
(`[+-]? digits [. digits]` with at least one digit overall); exponent
notation and the `inf`/`nan` spellings are outside the modelled subset
(the engine's one caller clamps the result into `[0,1]` either way). -/
def parsePyFloat (s : String) : Option Rat :=
  let core : List Char → Option Rat := fun l =>
    let intPart := l.takeWhile (fun c => c.isDigit)
    let rest := l.dropWhile (fun c => c.isDigit)
    match rest with
    | [] => if intPart.isEmpty then none
            else (digitsVal 0 intPart).map (fun n => (n : Rat))
    | '.' :: frac =>
        if frac.any (fun c => ¬ c.isDigit) then none
        else if intPart.isEmpty ∧ frac.isEmpty then none
        else do
          let ip ← digitsVal 0 intPart
          let fv ← fracVal 0 (1 / 10) frac
          pure ((ip : Rat) + fv)
    | _ => none
  match pyStripChars s.data with
  | '-' :: rest => (core rest).map (fun q => -q)
  | '+' :: rest => core rest
  | l => core l

/-! ## Datetimes

A Python `datetime` is modelled by its wall-clock reading in seconds
(`wall`, seconds since the epoch of the calendar it displays) plus an
optional UTC offset in seconds (`off = none` models a naive datetime,
`off = some o` a tz-aware one).  Comparison and subtraction of aware
datetimes act on the instant `wall - off`; naive ones act on `wall`;
Python raises `TypeError` when aware and naive are mixed. -/

structure DateTime where
  wall : Int
  off : Option Int
deriving DecidableEq, Repr

namespace DateTime

/-- Sort/subtraction key: the UTC instant for aware datetimes, the
wall-clock reading for naive ones (only ever compared within a batch of
uniform awareness). -/
def key (d : DateTime) : Int := d.wall - d.off.getD 0

/-- The `.hour` attribute: wall-clock hour of day. -/
def hour (d : DateTime) : Int := (d.wall.ediv 3600).emod 24

/-- `replace(second=0, microsecond=0)`: floor to the whole minute. -/
def minuteFloor (d : DateTime) : DateTime :=
  { d with wall := d.wall - d.wall.emod 60 }

/-- Floor to the 10-minute bucket boundary
(`b - timedelta(minutes=b.minute % 10)` after the minute floor). -/
def bucket10 (d : DateTime) : DateTime :=
  { d with wall := d.wall - d.wall.emod 600 }

end DateTime

/-- Days from the civil epoch 1970-01-01 for a Gregorian date
(standard days-from-civil computation, floor division throughout). -/
def daysFromCivil (y m d : Int) : Int :=
  let y' := if m ≤ 2 then y - 1 else y
  let era := y'.ediv 400
  let yoe := y' - era * 400
  let mp := (m + 9).emod 12
  let doy := (153 * mp + 2).ediv 5 + d - 1
  let doe := yoe * 365 + yoe.ediv 4 - yoe.ediv 100 + doy
  era * 146097 + doe - 719468

/-- Day count of a Gregorian month. -/
def daysInMonth (y m : Int) : Int :=
  if m = 2 then
    if y.emod 4 = 0 ∧ (y.emod 100 ≠ 0 ∨ y.emod 400 = 0) then 29 else 28
  else if m = 4 ∨ m = 6 ∨ m = 9 ∨ m = 11 then 30
  else 31

/-- Two-digit number from two chars, requiring both to be digits. -/
def twoDigits : List Char → Option Int
  | [a, b] => if a.isDigit ∧ b.isDigit
              then some ((a.toNat - 48) * 10 + (b.toNat - 48) : Nat)
              else none
  | _ => none

/-- Four-digit number from four chars. -/
def fourDigits : List Char → Option Int
  | [a, b, c, d] =>
      if a.isDigit ∧ b.isDigit ∧ c.isDigit ∧ d.isDigit
      then some (((a.toNat - 48) * 1000 + (b.toNat - 48) * 100 +

                  (c.toNat - 48) * 10 + (d.toNat - 48) : Nat))
      else none
  | _ => none

/-- Parse `HH:MM:SS` or `HH:MM` into seconds past midnight. -/
def parseClock (l : List Char) : Option Int := do
  let hh ← twoDigits (l.take 2)
  if l.drop 2 = [] then none else pure ()
  match l.drop 2 with
  | ':' :: rest => do
      let mm ← twoDigits (rest.take 2)
      let ss ←
        match rest.drop 2 with
        | [] => pure (0 : Int)
        | ':' :: rest2 =>
            if rest2.length = 2 then twoDigits rest2 else none
        | _ => none
      if hh ≤ 23 ∧ mm ≤ 59 ∧ ss ≤ 59 then pure (hh * 3600 + mm * 60 + ss)
      else none
  | _ => none

/-- Parse `YYYY-MM-DD` into days from the civil epoch. -/
def parseDate (l : List Char) : Option Int := do
  if l.length = 10 then pure () else none
  let y ← fourDigits (l.take 4)
  match l.drop 4 with
  | '-' :: rest => do
      let m ← twoDigits (rest.take 2)
      match rest.drop 2 with
      | '-' :: rest2 => do
          let d ← twoDigits rest2
          if 1 ≤ y ∧ 1 ≤ m ∧ m ≤ 12 ∧ 1 ≤ d ∧ d ≤ daysInMonth y m
          then pure (daysFromCivil y m d) else none
      | _ => none
  | _ => none

/-- Parse a `±HH:MM` UTC offset into seconds. -/
def parseOffset (l : List Char) : Option Int :=
  match l with
  | sign :: rest => do
      if sign = '+' ∨ sign = '-' then pure () else none
      if rest.length = 5 then pure () else none
      let hh ← twoDigits (rest.take 2)
      match rest.drop 2 with
      | ':' :: mmc => do
          let mm ← twoDigits mmc
          if hh ≤ 23 ∧ mm ≤ 59 then
            pure (if sign = '-' then -(hh * 3600 + mm * 60)
                  else hh * 3600 + mm * 60)
          else none
      | _ => none
  | [] => none

/-- `datetime.fromisoformat`, restricted to the shapes the logs carry:
`YYYY-MM-DD`, optionally followed by a one-character separator (`T` or a
space) and `HH:MM[:SS]`, optionally followed by a `±HH:MM` offset
(fractional seconds and other ISO variants are outside the subset). -/
def fromIsoChars (l : List Char) : Option DateTime :=
  let datePart := l.take 10
  do
    let days ← parseDate datePart
    match l.drop 10 with
    | [] => pure { wall := days * 86400, off := none }
    | sep :: rest => do
        if sep = 'T' ∨ sep = ' ' then pure () else none
        let timeLen := if rest.length ≥ 8 ∧ (rest.drop 5).head? = some ':'
                       then 8 else 5
        let secs ← parseClock (rest.take timeLen)
        match rest.drop timeLen with
        | [] => pure { wall := days * 86400 + secs, off := none }
        | offChars => do
            let o ← parseOffset offChars
            pure { wall := days * 86400 + secs, off := some o }

/-- `datetime.fromisoformat` on a string. -/
def fromIso (s : String) : Option DateTime := fromIsoChars s.data

/-- `datetime.strptime(s, "%Y-%m-%d %H:%M:%S")`: the exact fallback
pattern, always naive. -/
def parseFallbackChars (l : List Char) : Option DateTime := do
  if l.length = 19 then pure () else none
  let days ← parseDate (l.take 10)
  match l.drop 10 with
  | ' ' :: rest =>
      if rest.length = 8 then do
        let secs ← parseClock rest
        pure { wall := days * 86400 + secs, off := none }
      else none
  | _ => none

/-! ## Field coercions (`_as_dt`, `_as_int`, `_host`) -/

/-- The possible runtime values of a raw event's timestamp field:
absent/`None`, an actual `datetime`, or a string. -/
inductive TsVal where
  | tnone
  | tdt (d : DateTime)
  | tstr (s : String)
deriving DecidableEq, Repr

/-- The possible runtime values of a raw event's status field:
absent/`None`, an int, or a string (floats and other objects that
`int()` might coerce are outside the modelled input domain). -/
inductive IntVal where
  | anone
  | aint (n : Int)
  | astr (s : String)
deriving DecidableEq, Repr

/-- `_as_dt` (anomaly.py lines 39-51): pass `datetime`s through, parse
strings (treating a trailing `Z`/`z` as `+00:00`, falling back to
`"%Y-%m-%d %H:%M:%S"`), and degrade to `none` on anything else. -/
def _as_dt (x : TsVal) : Option DateTime :=
  match x with
  | .tnone => none
  | .tdt d => some d
  | .tstr s0 =>
      let l := pyStripChars s0.data
      let iso :=
        match l.getLast? with
        | some c =>
            if c = 'Z' ∨ c = 'z'
            then fromIsoChars (l.dropLast ++ "+00:00".data)
            else fromIsoChars l
        | none => fromIsoChars l
      match iso with
      | some d => some d
      | none => parseFallbackChars l

/-- `_as_int` (anomaly.py lines 53-55): `int(x)` with every exception
mapped to `None`. -/
def _as_int (x : IntVal) : Option Int :=
  match x with
  | .anone => none
  | .aint n => some n
  | .astr s => parsePyInt s

/-- Strip a URL scheme (`letter [alnum+.-]* ":"`) if present. -/
def dropScheme (l : List Char) : List Char :=
  let isSchemeChar := fun c : Char =>
    c.isAlphanum ∨ c = '+' ∨ c = '-' ∨ c = '.'
  match l with
  | c :: _ =>
      if c.isAlpha then
        let pre := l.takeWhile (fun ch => decide (isSchemeChar ch))
        match l.drop pre.length with
        | ':' :: rest => rest
        | _ => l
      else l
  | [] => l

/-- `_host` (anomaly.py lines 57-60): `urlparse(url).hostname or ""`,
with any parse failure giving `""`.  The netloc is the text between a
leading `//` (after an optional scheme) and the next `/`, `?` or `#`;
the hostname drops userinfo (text up to the last `@`) and the port
(text from the first following `:`), lowercased.  Bracketed (IPv6)
netlocs are collapsed to `""` (Python raises `ValueError` on malformed
ones, which `_host` catches; valid IPv6 hosts are outside the modelled
subset). -/
def _host (url : Option String) : String :=
  match url with
  | none => ""
  | some u =>
      if u = "" then ""
      else
        let rest := dropScheme u.data
        match rest with
        | '/' :: '/' :: tail =>
            let netloc := tail.takeWhile
              (fun c => decide (c ≠ '/' ∧ c ≠ '?' ∧ c ≠ '#'))
            if netloc.contains '[' ∨ netloc.contains ']' then ""
            else
              let afterUser :=
                if netloc.contains '@'
                then (netloc.reverse.takeWhile (fun c => c ≠ '@')).reverse
                else netloc
              let host := afterUser.takeWhile (fun c => c ≠ ':')
              ⟨host.map Char.toLower⟩
        | _ => ""

/-! ## Events

`RawEvent` models the producer-defined event mapping handed to
`detect_anomalies` (each recognized key either absent/`None` or carrying
a value of the runtime type the callers produce); `Norm` models the
fresh normalized record built per event (anomaly.py lines 76-93). -/

structure RawEvent where
  ts : TsVal := .tnone
  status : IntVal := .anone
  src_ip : Option String := none
  user : Option String := none
  user_agent : Option String := none
  action : Option String := none
  url : Option String := none
  raw : Option String := none
  event_id : Option Int := none
  id : Option Int := none
deriving DecidableEq, Repr

structure Norm where
  ts : Option DateTime
  status : Option Int
  src_ip : String
  user : String
  user_agent : String
  action : String
  url : String
  host : String
  raw : String
  event_id : Option Int
deriving DecidableEq, Repr

/-- One iteration of the normalization loop (anomaly.py lines 77-93):
build a fresh normalized record, tolerating either `event_id` or `id`. -/
def normOne (e : RawEvent) : Norm :=
  { ts := _as_dt e.ts
    status := _as_int e.status
    src_ip := e.src_ip.getD ""
    user := e.user.getD ""
    user_agent := pyStripStr (e.user_agent.getD "")
    action := pyLower (pyStripStr (e.action.getD ""))
    url := e.url.getD ""
    host := _host e.url
    raw := pyLower (e.raw.getD "")
    event_id := e.event_id.orElse (fun _ => e.id) }

/-- `ua_counts` (anomaly.py line 95): occurrences of each nonempty
user-agent string. -/
def uaCount (norm : List Norm) (ua : String) : Nat :=
  if ua = "" then 0 else norm.countP (fun e => e.user_agent == ua)

/-- Whether the parsed timestamps of a normalized batch mix tz-aware
and tz-naive datetimes (the situation in which Python's `sorted`
raises `TypeError`). -/
def mixedAwareness (norm : List Norm) : Bool :=
  let withTs := norm.filter (fun e => e.ts.isSome)
  (withTs.any (fun e => match e.ts with
    | some d => d.off.isSome
    | none => false)) &&
  (withTs.any (fun e => match e.ts with
    | some d => d.off.isNone
    | none => false))

/-- `time_sorted` (anomaly.py line 96): the events with a parsed
timestamp, stably sorted ascending.  Python's `sorted` raises
`TypeError` as soon as it compares a tz-aware with a tz-naive
`datetime`, which happens exactly when the filtered batch contains
both kinds; the `Except` error models that raise. -/
def timeSortedE (norm : List Norm) : Except Unit (List Norm) :=
  let withTs := norm.filter (fun e => e.ts.isSome)
  if mixedAwareness norm then .error ()
  else .ok (isort (fun a b =>
    decide ((a.ts.map DateTime.key).getD 0 ≤ (b.ts.map DateTime.key).getD 0)) withTs)

/-- Python truthiness of an optional integer event identifier
(`if ev.get("event_id")`): present and nonzero. -/
def truthyId : Option Int → Bool
  | some n => n ≠ 0
  | none => false

/-- An anomaly finding, with fields in the source's literal order. -/
structure Finding where
  reason : String
  score : Rat
  kind : String
  meta : List (String × PyVal)
deriving DecidableEq

/-! ## Lexical classifiers (PASSWORD_RESET_RE, MFA_RE)

The two case-insensitive regexes are embedded as explicit searchers
over lowercased character lists.  Gap classes (`[\s_-]*`, `\s+`,
`[-\s]?`) are consumed greedily, which is equivalent to the regex
semantics here because every gap character class is disjoint from the
first character of what must follow it. -/

/-- A character of the `[\s_-]` gap class. -/
def gapChar (c : Char) : Bool := c.isWhitespace ∨ c = '_' ∨ c = '-'

/-- A regex word character `\w` (ASCII). -/
def wordChar (c : Char) : Bool := c.isAlphanum ∨ c = '_'

/-- Match a literal, returning the remainder. -/
def litP (w : String) (l : List Char) : Option (List Char) :=
  if w.data.isPrefixOf l then some (l.drop w.length) else none

/-- PASSWORD_RESET_RE matched at the head of `l` (lowercased input). -/
def pwdAt (l : List Char) : Bool :=
  (match litP "password" l with
   | some r =>
       let r' := r.dropWhile (fun c => gapChar c)
       ["reset", "change", "changed", "update", "updated"].any
         (fun w => w.data.isPrefixOf r')
   | none => false) ||
  (match litP "reset" l with
   | some r =>
       ¬ (r.takeWhile (fun c => c.isWhitespace)).isEmpty &&
       "password".data.isPrefixOf (r.dropWhile (fun c => c.isWhitespace))
   | none => false) ||
  (match litP "pwd" l with
   | some r => "reset".data.isPrefixOf (r.dropWhile (fun c => gapChar c))
   | none => false) ||
  "post-change-password".data.isPrefixOf l ||
  (match litP "recovery" l with
   | some r =>
       ¬ (r.takeWhile (fun c => c.isWhitespace)).isEmpty &&
       (["email", "ticket"].any
         (fun w => w.data.isPrefixOf (r.dropWhile (fun c => c.isWhitespace))))
   | none => false)

/-- `re.search` of PASSWORD_RESET_RE: try every position. -/
def pwdSearch : List Char → Bool
  | [] => false
  | l@(_ :: t) => pwdAt l || pwdSearch t

/-- PASSWORD_RESET_RE as a predicate on event text. -/
def pwdMatch (t : String) : Bool := pwdSearch (t.data.map Char.toLower)

/-- Word boundary after the match: end of input or a non-word char. -/
def bAfter (r : List Char) : Bool :=
  match r.head? with
  | none => true
  | some c => ¬ wordChar c

/-- Finish an MFA_RE alternative: matched and at a word boundary. -/
def finB (o : Option (List Char)) : Bool :=
  match o with
  | some r => bAfter r
  | none => false

/-- MFA_RE matched at the head of `l` (lowercased input), the position
being preceded by a word boundary (checked by the caller). -/
def mfaAt (l : List Char) : Bool :=
  finB (litP "mfa" l) ||
  (match litP "multi" l with
   | some r =>
       finB (litP "factor" r) ||
       (match r.head? with
        | some c =>
            if c = '-' ∨ c.isWhitespace then finB (litP "factor" (r.drop 1))
            else false
        | none => false)
   | none => false) ||
  finB (litP "guardian" l) ||
  finB (litP "otp" l) ||
  (match litP "one" l with
   | some r =>
       finB (litP "time" r) ||
       (match r.head? with
        | some c =>
            if c = '-' ∨ c.isWhitespace then finB (litP "time" (r.drop 1))
            else false
        | none => false)
   | none => false) ||
  finB (litP "webauthn" l) ||
  finB (litP "duo" l) ||
  finB (litP "push" l) ||
  finB (litP "factor" l) ||
  finB (litP "challenge" l) ||
  finB (litP "enroll" l) ||
  finB (litP "enrollment" l) ||
  (match litP "recovery" l with
   | some r =>
       ¬ (r.takeWhile (fun c => c.isWhitespace)).isEmpty &&
       finB (litP "code" (r.dropWhile (fun c => c.isWhitespace)))
   | none => false)

/-- `re.search` of MFA_RE, tracking whether the previous character was
a word character (for the leading `\b`). -/
def mfaGo (prevWord : Bool) : List Char → Bool
  | [] => false
  | l@(c :: t) => ((¬ prevWord) && mfaAt l) || mfaGo (wordChar c) t

/-- MFA_RE as a predicate on event text. -/
def mfaMatch (t : String) : Bool := mfaGo false (t.data.map Char.toLower)

/-! ## Shared pass utilities -/

/-- The joined event text fed to the recognizers (anomaly.py lines
106-114): action, status, url, user-agent and raw text, keeping only
truthy components, space-joined. -/
def eventText (ev : Norm) : String :=
  let comps : List String :=
    [ev.action] ++
    (match ev.status with
     | some n => if n = 0 then [] else [toString n]
     | none => []) ++
    [ev.url, ev.user_agent, ev.raw]
  String.intercalate " " (comps.filter (fun s => s ≠ ""))

/-- `_bucket_minute` (anomaly.py lines 62-65): `"unknown"` for a missing
timestamp, otherwise the minute-floored timestamp's `isoformat()`
string.  The rendering here is an injective stand-in for the ISO text
(`isoformat` is itself injective on the minute-floored wall clock
together with the offset, and no claim inspects the text). -/
def minuteStr (ts : Option DateTime) : String :=
  match ts with
  | none => "unknown"
  | some d =>
      "m" ++ toString d.minuteFloor.wall ++
      (match d.off with
       | none => "n"
       | some o => "+" ++ toString o)

/-- Append `v` to the bucket of `k`, inserting the key at the end on
first touch (Python `defaultdict` + `append`, insertion-ordered). -/
def bucketAdd [DecidableEq κ] (m : List (κ × List α)) (k : κ) (v : α) :
    List (κ × List α) :=
  match m with
  | [] => [(k, [v])]
  | (k', l) :: rest =>
      if k = k' then (k', l ++ [v]) :: rest else (k', l) :: bucketAdd rest k v

/-- Ensure `k` has a (possibly empty) bucket (Python `setdefault`). -/
def bucketTouch [DecidableEq κ] (m : List (κ × List α)) (k : κ) :
    List (κ × List α) :=
  match m with
  | [] => [(k, [])]
  | (k', l) :: rest =>
      if k = k' then (k', l) :: rest else (k', l) :: bucketTouch rest k

/-- `defaultdict` lookup with a default. -/
def lookupD [DecidableEq κ] (m : List (κ × α)) (k : κ) (d : α) : α :=
  match m with
  | [] => d
  | (k', v) :: rest => if k = k' then v else lookupD rest k d

/-- Store a value under a key (replace in place, or append on first
touch; sliding-window state is looked up but never iterated). -/
def setKV [DecidableEq κ] (m : List (κ × α)) (k : κ) (v : α) :
    List (κ × α) :=
  match m with
  | [] => [(k, v)]
  | (k', v') :: rest =>
      if k = k' then (k', v) :: rest else (k', v') :: setKV rest k v

/-- A sliding-window entry `(ts, event_id)`; the timestamp is kept as
its subtraction key (instant for aware, wall clock for naive). -/
structure WEntry where
  t : Int
  eid : Option Int
deriving DecidableEq, Repr

/-- Evict from the window's front while the newest timestamp is more
than `winSec` seconds past the oldest (`while q and ... popleft`). -/
def evictOld (winSec t : Int) : List WEntry → List WEntry
  | [] => []
  | w :: ws => if t - w.t > winSec then evictOld winSec t ws else w :: ws

/-- The ids captured from a window:
`[x[1] for x in list(q) if x[1] is not None][:50]`. -/
def windowIds (q : List WEntry) : List Int :=
  (q.filterMap (fun w => w.eid)).take 50

/-! ## Pass 0: password reset / MFA activity -/

/-- Bucket key `(minute, user-or-"<unknown>", ip-or-"<ip?>")`
(anomaly.py lines 115-117). -/
def pwdMfaKey (ev : Norm) : String × String × String :=
  (minuteStr ev.ts,
   if pyStripStr ev.user = "" then "<unknown>" else pyStripStr ev.user,
   if pyStripStr ev.src_ip = "" then "<ip?>" else pyStripStr ev.src_ip)

/-- Accumulate the password and MFA buckets (anomaly.py lines 102-130):
a matching event with an id appends it; one without an id still touches
the bucket. -/
def pwdMfaBuckets (norm : List Norm) :
    List ((String × String × String) × List Int) ×
    List ((String × String × String) × List Int) :=
  norm.foldl
    (fun acc ev =>
      let text := eventText ev
      let k := pwdMfaKey ev
      let acc1 :=
        if pwdMatch text then
          match ev.event_id with
          | some eid => bucketAdd acc.1 k eid
          | none => bucketTouch acc.1 k
        else acc.1
      let acc2 :=
        if mfaMatch text then
          match ev.event_id with
          | some eid => bucketAdd acc.2 k eid
          | none => bucketTouch acc.2 k
        else acc.2
      (acc1, acc2))
    ([], [])

/-- Pass 0 (anomaly.py lines 101-146): one finding per password bucket,
then one per MFA bucket, in bucket insertion order. -/
def pwdMfaPass (norm : List Norm) : List Finding :=
  let bs := pwdMfaBuckets norm
  bs.1.map (fun b =>
    { reason := "Password reset/change observed for " ++ b.1.2.1 ++ "."
      score := 0.65
      kind := "auth.password_reset"
      meta := [("user", .pstr b.1.2.1), ("src_ip", .pstr b.1.2.2),
               ("minute", .pstr b.1.1),
               ("event_ids", .plist ((b.2.take 50).map .pint))] }) ++
  bs.2.map (fun b =>
    { reason := "MFA activity observed (enroll/challenge/reset) for " ++
        b.1.2.1 ++ "."
      score := 0.55
      kind := "auth.mfa_activity"
      meta := [("user", .pstr b.1.2.1), ("src_ip", .pstr b.1.2.2),
               ("minute", .pstr b.1.1),
               ("event_ids", .plist ((b.2.take 50).map .pint))] })

/-! ## Pass 1: brute force -/

/-- The `auth.bruteforce_user` finding built from a full window. -/
def bfUserFinding (u : String) (q : List WEntry) : Finding :=
  { reason := "Brute-force suspected against user " ++ u
    score := 0.95
    kind := "auth.bruteforce_user"
    meta := [("window_sec", .pint 120), ("failures", .pint q.length),
             ("user", .pstr u),
             ("event_ids", .plist ((windowIds q).map .pint))] }

/-- The `auth.bruteforce_pair` finding built from a full window. -/
def bfPairFinding (u ip : String) (q : List WEntry) : Finding :=
  { reason := "Brute-force suspected from " ++ ip ++ " targeting " ++ u
    score := 0.96
    kind := "auth.bruteforce_pair"
    meta := [("window_sec", .pint 120), ("failures", .pint q.length),
             ("user", .pstr u), ("src_ip", .pstr ip),
             ("event_ids", .plist ((windowIds q).map .pint))] }

structure BFState where
  winU : List (String × List WEntry)
  winP : List ((String × String) × List WEntry)
  acc : List Finding
deriving DecidableEq

/-- One brute-force iteration (anomaly.py lines 152-186): 401 events
push `(ts, id)` into the per-user and per-pair windows, evict entries
older than 120s, then each window that reached 10 emits a finding and
is cleared (user first, then pair). -/
def bruteStep (st : BFState) (ev : Norm) : BFState :=
  if ev.status ≠ some 401 then st else
  match ev.ts with
  | none => st
  | some d =>
      let t := d.key
      let eid := ev.event_id
      let kU := if ev.user = "" then "<unknown>" else ev.user
      let ipD := if ev.src_ip = "" then "<ip?>" else ev.src_ip
      let qU := evictOld 120 t (lookupD st.winU kU [] ++ [⟨t, eid⟩])
      let qP := evictOld 120 t (lookupD st.winP (kU, ipD) [] ++ [⟨t, eid⟩])
      let winU1 := setKV st.winU kU qU
      let winP1 := setKV st.winP (kU, ipD) qP
      { winU := if qU.length ≥ 10 then setKV winU1 kU [] else winU1,
        winP := if qP.length ≥ 10 then setKV winP1 (kU, ipD) [] else winP1,
        acc := st.acc ++
          (if qU.length ≥ 10 then [bfUserFinding kU qU] else []) ++
          (if qP.length ≥ 10 then [bfPairFinding kU ipD qP] else []) }

/-- Pass 1 (anomaly.py lines 149-186). -/
def brutePass (tsorted : List Norm) : List Finding :=
  (tsorted.foldl bruteStep ⟨[], [], []⟩).acc

/-! ## Pass 2: Auth0 protection blocked -/

/-- Pass 2 (anomaly.py lines 189-197): 403 events whose raw text
mentions "brute-force" or "blocked". -/
def blockedPass (norm : List Norm) : List Finding :=
  norm.flatMap (fun ev =>
    if ev.status = some 403 ∧
       (pyContains ev.raw "brute-force" ∨ pyContains ev.raw "blocked") then
      [{ reason := "Auth0 protection blocked login (user=" ++ ev.user ++
           " ip=" ++ ev.src_ip ++ ")"
         score := 0.9
         kind := "auth.blocked"
         meta := [("status",
                   match ev.status with
                   | some n => .pint n
                   | none => .pnone),
                  ("event_ids", .plist
                    (if truthyId ev.event_id
                     then [.pint (ev.event_id.getD 0)] else []))] }]
    else [])

/-! ## Pass 3: high-risk source -/

/-- Extract the numeric token after `risk=` (anomaly.py lines 203-208),
defaulting to 0.9 on any failure inside the `try`. -/
def riskVal (raw : String) : Rat :=
  (match afterFirst raw.data "risk=".data with
   | some frag =>
       match (pySplitWs ⟨frag⟩).head? with
       | some tok => parsePyFloat (stripPunct tok)
       | none => none
   | none => none).getD 0.9

/-- Pass 3 (anomaly.py lines 200-222): `risk=` events score
`clamp(0.85 + 0.15·risk)`, otherwise TOR-looking raw text scores 0.88. -/
def highRiskPass (norm : List Norm) : List Finding :=
  norm.flatMap (fun ev =>
    if pyContains ev.raw "risk=" then
      let val := riskVal ev.raw
      [{ reason := "High-risk login source (user=" ++ ev.user ++ " ip=" ++
           ev.src_ip ++ ")"
         score := min 1 (max 0 (0.85 + 0.15 * val))
         kind := "auth.high_risk"
         meta := [("risk", .prat val),
                  ("event_ids", .plist
                    (if truthyId ev.event_id
                     then [.pint (ev.event_id.getD 0)] else []))] }]
    else if pyContains ev.raw "tor" ∨ pyContains ev.raw "tor_exit" then
      [{ reason := "Login from TOR-like source (user=" ++ ev.user ++
           " ip=" ++ ev.src_ip ++ ")"
         score := 0.88
         kind := "auth.tor"
         meta := [("event_ids", .plist
                    (if truthyId ev.event_id
                     then [.pint (ev.event_id.getD 0)] else []))] }]
    else [])

/-! ## Pass 4: high error rate -/

/-- The 10-minute bucket grouping (anomaly.py lines 226-231): each
timed event joins both its user bucket and its host bucket.  The bucket
key's datetime component is its dict-key identity (instant for aware,
wall clock for naive). -/
def errBuckets (tsorted : List Norm) :
    List ((String × String × Int) × List Norm) :=
  tsorted.foldl
    (fun acc ev =>
      match ev.ts with
      | none => acc
      | some d =>
          let b := d.bucket10.key
          bucketAdd (bucketAdd acc ("user", ev.user, b) ev)
            ("host", ev.host, b) ev)
    []

/-- Error count of a bucket:
`sum(1 for x in lst if x["status"] and 400 <= x["status"] < 600)`. -/
def errCount (lst : List Norm) : Nat :=
  lst.countP (fun x =>
    match x.status with
    | some s => decide (s ≠ 0 ∧ 400 ≤ s ∧ s < 600)
    | none => false)

/-- `f"{ratio:.0%}"`: percentage rounded to whole points (rounding-mode
differences from Python's float formatting can only show up at exact
half-point ratios and affect no claim). -/
def pctStr (ratio : Rat) : String := toString (round (ratio * 100)) ++ "%"

/-- The per-bucket emission of pass 4 (anomaly.py lines 233-246). -/
def errBucketFindings (kindTag who : String) (lst : List Norm) :
    List Finding :=
  if lst.length < 20 then []
  else
    let errors := errCount lst
    let ratio : Rat := (errors : Rat) / ((max 1 lst.length : Nat) : Rat)
    if ratio ≥ 0.65 then
      [{ reason := "High error rate (" ++ pctStr ratio ++
           ") in 10-min window for " ++ who
         score := if ratio ≥ 0.8 then 0.82 else 0.75
         kind := "web.error_" ++ kindTag
         meta := [("events", .pint lst.length), ("errors", .pint errors),
                  ("event_ids", .plist
                    (((lst.filter (fun e => truthyId e.event_id)).filterMap
                        (fun e => e.event_id)).take 50 |>.map .pint))] }]
    else []

/-- Pass 4 (anomaly.py lines 225-246). -/
def highErrorPass (tsorted : List Norm) : List Finding :=
  (errBuckets tsorted).flatMap (fun b => errBucketFindings b.1.1 b.1.2.1 b.2)

/-! ## Pass 5: rare user-agent -/

def rareUAReason (ua : String) : String :=
  "Rare user-agent observed: \x27" ++ ua ++ "\x27"

/-- The `web.rare_ua` finding for `ua` (sample ids are the first 10
truthy ids of events carrying `ua`). -/
def rareUAFinding (norm : List Norm) (cnt : Nat) (ua : String) : Finding :=
  { reason := rareUAReason ua
    score := if cnt = 1 then 0.62 else 0.58
    kind := "web.rare_ua"
    meta := [("count", .pint cnt),
             ("event_ids", .plist
               ((((norm.filter (fun e =>
                     e.user_agent = ua ∧ truthyId e.event_id)).filterMap
                   (fun e => e.event_id)).take 10).map .pint))] }

/-- The rare-UA scan (anomaly.py lines 250-262): first occurrence of
each nonempty user-agent with a global count below 2 emits once. -/
def rareUAGo (norm : List Norm) (cnt : String → Nat) :
    List Norm → List String → List Finding
  | [], _ => []
  | ev :: rest, seen =>
      let ua := ev.user_agent
      if ua = "" ∨ ua ∈ seen then rareUAGo norm cnt rest seen
      else if cnt ua < 2 then
        rareUAFinding norm (cnt ua) ua :: rareUAGo norm cnt rest (ua :: seen)
      else rareUAGo norm cnt rest seen

/-- Pass 5 (anomaly.py lines 249-262). -/
def rareUAPass (norm : List Norm) : List Finding :=
  rareUAGo norm (uaCount norm) norm []

/-! ## Pass 6: off-hours logins -/

/-- Pass 6 (anomaly.py lines 265-277): successful (200) events in local
hours 0-5 pool their truthy ids into a single aggregate finding. -/
def offHoursPass (tsorted : List Norm) : List Finding :=
  let ids := tsorted.foldl
    (fun acc ev =>
      if ev.status = some 200 then
        match ev.ts with
        | some d =>
            if (0 ≤ d.hour ∧ d.hour ≤ 5) ∧ truthyId ev.event_id
            then acc ++ [ev.event_id.getD 0] else acc
        | none => acc
      else acc)
    []
  if ids ≠ [] then
    [{ reason := "Off-hours successful logins detected"
       score := 0.55
       kind := "auth.offhours"
       meta := [("event_ids", .plist ((ids.take 50).map .pint))] }]
  else []

/-! ## Pass 7: token-exchange failure burst -/

/-- The `auth.token_fail_burst` finding built from a full window. -/
def tokenFinding (host : String) (q : List WEntry) : Finding :=
  { reason := "Spike of token-exchange failures at " ++ host
    score := 0.8
    kind := "auth.token_fail_burst"
    meta := [("window_sec", .pint 300), ("failures", .pint q.length),
             ("event_ids", .plist ((windowIds q).map .pint))] }

structure TKState where
  win : List (String × List WEntry)
  acc : List Finding
deriving DecidableEq

/-- One token-burst iteration (anomaly.py lines 282-298): 401 events on
an `/oauth/token` URL slide a 300s per-host window; at 15 entries a
finding is emitted and the window cleared. -/
def tokenStep (st : TKState) (ev : Norm) : TKState :=
  if ev.status ≠ some 401 then st
  else if ¬ pyContains ev.url "/oauth/token" then st
  else
    match ev.ts with
    | none => st
    | some d =>
        let host := if ev.host = "" then "<auth>" else ev.host
        let t := d.key
        let q := evictOld 300 t (lookupD st.win host [] ++ [⟨t, ev.event_id⟩])
        if q.length ≥ 15 then
          { win := setKV st.win host [], acc := st.acc ++ [tokenFinding host q] }
        else { win := setKV st.win host q, acc := st.acc }

/-- Pass 7 (anomaly.py lines 280-298). -/
def tokenPass (tsorted : List Norm) : List Finding :=
  (tsorted.foldl tokenStep ⟨[], []⟩).acc

/-! ## Deduplicator and the engine -/

/-- The structural de-duplication key
`(kind, reason, _freeze(meta))` (anomaly.py line 313). -/
def findingKey (f : Finding) : String × String × PyVal :=
  (f.kind, f.reason, freeze (.pdict f.meta))

/-- First-occurrence retention by structural key
(anomaly.py lines 311-317). -/
def dedupGo (seen : List (String × String × PyVal)) :
    List Finding → List Finding
  | [] => []
  | a :: rest =>
      let k := findingKey a
      if k ∈ seen then dedupGo seen rest
      else a :: dedupGo (k :: seen) rest

/-- The Deduplicator. -/
def dedupFindings (l : List Finding) : List Finding := dedupGo [] l

/-- `detect_anomalies` (anomaly.py lines 67-318).  The `Except` error
is the `TypeError` Python raises while building `time_sorted` when the
batch mixes tz-aware and tz-naive parsed timestamps; on every other
input the pipeline returns the deduplicated concatenation of the eight
passes in declaration order. -/
def detect_anomalies (events : List RawEvent) : Except Unit (List Finding) :=
  if events.isEmpty then .ok []
  else
    let norm := events.map normOne
    match timeSortedE norm with
    | .error e => .error e
    | .ok tsorted =>
        let anomalies :=
          pwdMfaPass norm ++ brutePass tsorted ++ blockedPass norm ++
          highRiskPass norm ++ highErrorPass tsorted ++
          rareUAPass norm ++ offHoursPass tsorted ++ tokenPass tsorted
        .ok (dedupFindings anomalies)

/-- State-passing rendition of the normalization loop: the input batch
is threaded as explicit state, every access being a read
(`e.get(...)`); the loop builds fresh `Norm` records and hands the
batch back untouched. -/
def normalizeThread : List RawEvent → List RawEvent × List Norm
  | [] => ([], [])
  | e :: rest =>
      let n := normOne e
      let (rest', ns) := normalizeThread rest
      (e :: rest', n :: ns)

/-- State-passing rendition of `detect_anomalies`: the caller's batch
is explicit state threaded through the call; the source contains no
write to it (no index/key assignment, no append, no delete on `events`
or its mappings), so the translation returns it alongside the result. -/
def detect_anomalies_st (events : List RawEvent) :
    List RawEvent × Except Unit (List Finding) :=
  if events.isEmpty then (events, .ok [])
  else
    let (events', norm) := normalizeThread events
    (events',
      match timeSortedE norm with
      | .error e => .error e
      | .ok tsorted =>
          let anomalies :=
            pwdMfaPass norm ++ brutePass tsorted ++ blockedPass norm ++
            highRiskPass norm ++ highErrorPass tsorted ++
            rareUAPass norm ++ offHoursPass tsorted ++ tokenPass tsorted
          .ok (dedupFindings anomalies))

/-! ## Deduplicator lemmas -/

lemma dedupGo_sublist (seen : List (String × String × PyVal)) :
    ∀ l : List Finding, (dedupGo seen l).Sublist l := by
  intro l
  induction l generalizing seen with
  | nil => simp [dedupGo]
  | cons a rest ih =>
      simp only [dedupGo]
      split
      · exact (ih seen).cons a
      · exact (ih _).cons₂ a

lemma dedupFindings_sublist (l : List Finding) :
    (dedupFindings l).Sublist l := dedupGo_sublist [] l

lemma mem_of_mem_dedup {l : List Finding} {f : Finding}
    (h : f ∈ dedupFindings l) : f ∈ l :=
  (dedupFindings_sublist l).subset h

/-- Every key of a deduplicated suffix avoids the `seen` set, and the
retained keys are pairwise distinct. -/
lemma dedupGo_keys (seen : List (String × String × PyVal)) :
    ∀ l : List Finding,
      (∀ f ∈ dedupGo seen l, findingKey f ∉ seen) ∧
      ((dedupGo seen l).map findingKey).Nodup := by
  intro l
  induction l generalizing seen with
  | nil => simp [dedupGo]
  | cons a rest ih =>
      simp only [dedupGo]
      split
      · exact ih seen
      · rename_i hnot
        obtain ⟨ih1, ih2⟩ := ih (findingKey a :: seen)
        refine ⟨?_, ?_⟩
        · intro f hf
          rcases List.mem_cons.mp hf with heq | hf'
          · rw [heq]; exact hnot
          · exact fun hk => (ih1 f hf') (List.mem_cons_of_mem _ hk)
        · refine List.nodup_cons.mpr ⟨?_, ih2⟩
          intro hk
          obtain ⟨g, hg, hgk⟩ := List.mem_map.mp hk
          exact (ih1 g hg) (by simp [hgk])

/-- Deduplicating a list whose keys are fresh and pairwise distinct is
the identity. -/
lemma dedupGo_eq_self (seen : List (String × String × PyVal)) :
    ∀ l : List Finding, (∀ f ∈ l, findingKey f ∉ seen) →
      (l.map findingKey).Nodup → dedupGo seen l = l := by
  intro l
  induction l generalizing seen with
  | nil => intro _ _; simp [dedupGo]
  | cons a rest ih =>
      intro hfresh hnodup
      simp only [dedupGo]
      rw [if_neg (hfresh a (List.mem_cons_self a rest))]
      congr 1
      refine ih _ ?_ (List.nodup_cons.mp hnodup).2
      intro f hf
      intro hmem
      rcases List.mem_cons.mp hmem with heq | hmem'
      · exact (List.nodup_cons.mp hnodup).1
          (heq ▸ List.mem_map.mpr ⟨f, hf, rfl⟩)
      · exact hfresh f (List.mem_cons_of_mem _ hf) hmem'

lemma dedupFindings_idem (l : List Finding) :
    dedupFindings (dedupFindings l) = dedupFindings l := by
  refine dedupGo_eq_self [] _ (fun f _ => by simp) ?_
  exact (dedupGo_keys [] l).2

/-- Deduplication leaves the sole match of a key-respecting filter in
place: if at most one element satisfies `P`, and equal keys agree on
`P`, filtering commutes with deduplication. -/
lemma dedupGo_filter (P : Finding → Bool)
    (hresp : ∀ f g, findingKey f = findingKey g → P f = P g) :
    ∀ (l : List Finding) (seen : List (String × String × PyVal)),
      (∀ k ∈ seen, ∀ f : Finding, findingKey f = k → P f = false) →
      (l.filter P).length ≤ 1 →
      (dedupGo seen l).filter P = l.filter P := by
  intro l
  induction l with
  | nil => intro seen _ _; simp [dedupGo]
  | cons a rest ih =>
      intro seen hseen hlen
      simp only [dedupGo]
      by_cases hPa : P a = true
      · have hrest : rest.filter P = [] := by
          rcases h : rest.filter P with _ | ⟨b, bs⟩
          · rfl
          · exfalso
            have : 2 ≤ ((a :: rest).filter P).length := by
              simp [List.filter_cons, hPa, h]
            omega
        have hnotseen : findingKey a ∉ seen := fun hmem =>
          by simpa [hPa] using hseen _ hmem a rfl
        rw [if_neg hnotseen]
        have hsub : (dedupGo (findingKey a :: seen) rest).filter P = [] := by
          rw [List.filter_eq_nil_iff]
          intro b hb
          have hbrest : b ∈ rest := (dedupGo_sublist _ _).subset hb
          have := List.filter_eq_nil_iff.mp hrest b hbrest
          simpa using this
        simp [List.filter_cons, hPa, hrest, hsub]
      · have hPa' : P a = false := by simpa using hPa
        by_cases hmem : findingKey a ∈ seen
        · rw [if_pos hmem]
          rw [ih seen hseen (by simpa [List.filter_cons, hPa'] using hlen)]
          simp [List.filter_cons, hPa']
        · rw [if_neg hmem]
          have hseen' : ∀ k ∈ findingKey a :: seen,
              ∀ f : Finding, findingKey f = k → P f = false := by
            intro k hk f hfk
            rcases List.mem_cons.mp hk with heq | hk'
            · have := hresp f a (by rw [hfk, heq])
              rw [this, hPa']
            · exact hseen k hk' f hfk
          have hlen' : (rest.filter P).length ≤ 1 := by
            simpa [List.filter_cons, hPa'] using hlen
          simp [List.filter_cons, hPa', ih _ hseen' hlen']

lemma dedupFindings_filter (P : Finding → Bool)
    (hresp : ∀ f g, findingKey f = findingKey g → P f = P g)
    (l : List Finding) (hlen : (l.filter P).length ≤ 1) :
    (dedupFindings l).filter P = l.filter P :=
  dedupGo_filter P hresp l [] (by simp) hlen

/-- Every key occurring in the input still occurs among the retained
findings' keys (first-occurrence retention loses no key). -/
lemma dedupGo_covers (seen : List (String × String × PyVal)) :
    ∀ l : List Finding, ∀ f ∈ l,
      findingKey f ∈ (dedupGo seen l).map findingKey ∨ findingKey f ∈ seen := by
  intro l
  induction l generalizing seen with
  | nil => intro f hf; cases hf
  | cons a rest ih =>
      intro f hf
      simp only [dedupGo]
      split
      · rename_i hmem
        rcases List.mem_cons.mp hf with heq | hf'
        · right; rw [heq]; exact hmem
        · exact ih seen f hf'
      · rcases List.mem_cons.mp hf with heq | hf'
        · left; rw [heq]; simp
        · rcases ih (findingKey a :: seen) f hf' with h | h
          · left; simp [h]
          · rcases List.mem_cons.mp h with heq | h'
            · left; simp [heq]
            · right; exact h'

/-! ## Sorting lemmas (for canonicalization of dict keys) -/

mutual
theorem fcmp_refl : ∀ a : PyVal, fcmp a a = .eq
  | .pnone => by simp [fcmp, cmp3]
  | .pint _ => by simp [fcmp, cmp3]
  | .prat _ => by simp [fcmp, cmp3]
  | .pstr _ => by simp [fcmp, cmp3s]
  | .plist l => by simp [fcmp, fcmpL_refl l]
  | .pset _ => by simp [fcmp, cmp3]
  | .pdict _ => by simp [fcmp, cmp3]
theorem fcmpL_refl : ∀ l : List PyVal, fcmpL l l = .eq
  | [] => rfl
  | a :: as => by
      simp [fcmpL, fcmp_refl a, fcmpL_refl as, Ordering.then]
end

lemma fle_refl (a : PyVal) : fle a a = true := by
  simp [fle, fcmp_refl]

lemma insSorted_perm (le : α → α → Bool) (x : α) :
    ∀ l : List α, (insSorted le x l).Perm (x :: l)
  | [] => List.Perm.refl _
  | y :: ys => by
      simp only [insSorted]
      split
      · exact ((insSorted_perm le x ys).cons y).trans (List.Perm.swap x y ys)
      · exact List.Perm.refl _

lemma foldl_ins_perm (le : α → α → Bool) :
    ∀ (l acc : List α),
      (l.foldl (fun a x => insSorted le x a) acc).Perm (acc ++ l)
  | [], acc => by simp
  | x :: xs, acc => by
      simp only [List.foldl_cons]
      refine (foldl_ins_perm le xs (insSorted le x acc)).trans ?_
      refine (List.Perm.append_right xs (insSorted_perm le x acc)).trans ?_
      exact List.perm_middle.symm

lemma isort_perm (le : α → α → Bool) (l : List α) :
    (isort le l).Perm l := by
  simpa using foldl_ins_perm le l []

lemma insSorted_pairwise (le : α → α → Bool) (x : α) :
    ∀ l : List α,
      (∀ b ∈ l, le b x = true ∨ le x b = true) →
      (∀ a ∈ l, ∀ b ∈ l, le x a = true → le a b = true → le x b = true) →
      l.Pairwise (fun a b => le a b = true) →
      (insSorted le x l).Pairwise (fun a b => le a b = true) := by
  intro l
  induction l with
  | nil => intro _ _ _; simp [insSorted]
  | cons y ys ih =>
      intro htot htrans hl
      obtain ⟨hyall, hys⟩ := List.pairwise_cons.mp hl
      simp only [insSorted]
      by_cases hyx : le y x = true
      · rw [if_pos hyx]
        refine List.pairwise_cons.mpr ⟨?_, ?_⟩
        · intro b hb
          have hb' : b ∈ x :: ys := (insSorted_perm le x ys).subset hb
          rcases List.mem_cons.mp hb' with heq | hbys
          · rw [heq]; exact hyx
          · exact hyall b hbys
        · refine ih ?_ ?_ hys
          · intro b hb; exact htot b (List.mem_cons_of_mem _ hb)
          · intro a ha b hb
            exact htrans a (List.mem_cons_of_mem _ ha) b (List.mem_cons_of_mem _ hb)
      · rw [if_neg hyx]
        have hxy : le x y = true := by
          rcases htot y (List.mem_cons_self _ _) with h | h
          · exact absurd h hyx
          · exact h
        refine List.pairwise_cons.mpr ⟨?_, hl⟩
        intro b hb
        rcases List.mem_cons.mp hb with heq | hbys
        · rw [heq]; exact hxy
        · exact htrans y (List.mem_cons_self _ _) b (List.mem_cons_of_mem _ hbys)
            hxy (hyall b hbys)

lemma foldl_ins_pairwise (le : α → α → Bool) :
    ∀ (l acc : List α),
      (∀ b ∈ acc ++ l, ∀ x ∈ acc ++ l, le b x = true ∨ le x b = true) →
      (∀ x ∈ acc ++ l, ∀ a ∈ acc ++ l, ∀ b ∈ acc ++ l,
          le x a = true → le a b = true → le x b = true) →
      acc.Pairwise (fun a b => le a b = true) →
      (l.foldl (fun a x => insSorted le x a) acc).Pairwise
        (fun a b => le a b = true) := by
  intro l
  induction l with
  | nil => intro acc _ _ hacc; simpa using hacc
  | cons x xs ih =>
      intro acc htot htrans hacc
      simp only [List.foldl_cons]
      have hmem : ∀ m : α, m ∈ insSorted le x acc ++ xs → m ∈ acc ++ x :: xs := by
        intro m hm
        rcases List.mem_append.mp hm with h | h
        · rcases List.mem_cons.mp ((insSorted_perm le x acc).subset h) with heq | h'
          · exact List.mem_append.mpr (Or.inr (heq ▸ List.mem_cons_self _ _))
          · exact List.mem_append.mpr (Or.inl h')
        · exact List.mem_append.mpr (Or.inr (List.mem_cons_of_mem _ h))
      refine ih (insSorted le x acc) ?_ ?_ ?_
      · intro b hb y hy; exact htot b (hmem b hb) y (hmem y hy)
      · intro y hy a ha b hb
        exact htrans y (hmem y hy) a (hmem a ha) b (hmem b hb)
      · refine insSorted_pairwise le x acc ?_ ?_ hacc
        · intro b hb
          exact htot b (List.mem_append.mpr (Or.inl hb))
            x (List.mem_append.mpr (Or.inr (List.mem_cons_self _ _)))
        · intro a ha b hb
          exact htrans x (List.mem_append.mpr (Or.inr (List.mem_cons_self _ _)))
            a (List.mem_append.mpr (Or.inl ha)) b (List.mem_append.mpr (Or.inl hb))

lemma isort_pairwise (le : α → α → Bool) (l : List α)
    (htot : ∀ b ∈ l, ∀ x ∈ l, le b x = true ∨ le x b = true)
    (htrans : ∀ x ∈ l, ∀ a ∈ l, ∀ b ∈ l,
        le x a = true → le a b = true → le x b = true) :
    (isort le l).Pairwise (fun a b => le a b = true) := by
  refine foldl_ins_pairwise le l [] ?_ ?_ (by simp)
  · simpa using htot
  · simpa using htrans

/-- Two sorted lists that are permutations of each other, over elements
on which the order is antisymmetric, coincide. -/
lemma sorted_perm_unique (le : α → α → Bool) :
    ∀ (l1 l2 : List α), l1.Perm l2 →
      l1.Pairwise (fun a b => le a b = true) →
      l2.Pairwise (fun a b => le a b = true) →
      (∀ a ∈ l1, ∀ b ∈ l1, le a b = true → le b a = true → a = b) →
      l1 = l2 := by
  intro l1
  induction l1 with
  | nil => intro l2 hp _ _ _; exact hp.nil_eq
  | cons x xs ih =>
      intro l2 hp hs1 hs2 hanti
      rcases l2 with _ | ⟨y, ys⟩
      · exact absurd hp.symm (by simp)
      · have hy1 : y ∈ x :: xs := hp.symm.subset (List.mem_cons_self _ _)
        have hx2 : x ∈ y :: ys := hp.subset (List.mem_cons_self _ _)
        have hxy : x = y := by
          rcases List.mem_cons.mp hy1 with heq | hytail
          · exact heq.symm
          · rcases List.mem_cons.mp hx2 with heq | hxtail
            · exact heq
            · exact hanti x (List.mem_cons_self _ _) y (List.mem_cons_of_mem _ hytail)
                ((List.pairwise_cons.mp hs1).1 y hytail)
                ((List.pairwise_cons.mp hs2).1 x hxtail)
        subst hxy
        have hp' : xs.Perm ys := hp.cons_inv
        rw [ih ys hp' (List.pairwise_cons.mp hs1).2 (List.pairwise_cons.mp hs2).2
          (fun a ha b hb => hanti a (List.mem_cons_of_mem _ ha)
            b (List.mem_cons_of_mem _ hb))]

/-! ## Canonicalization of dict entries -/

/-- The frozen form of one dict entry: the tuple `(k, _freeze(v))`. -/
def dictEntry (kv : String × PyVal) : PyVal := .plist [.pstr kv.1, freeze kv.2]

lemma freezeKV_eq_map : ∀ kvs : List (String × PyVal),
    freezeKV kvs = kvs.map dictEntry
  | [] => rfl
  | (k, v) :: rest => by simp [freezeKV, freezeKV_eq_map rest, dictEntry]

lemma charToNat_inj {a b : Char} (h : a.toNat = b.toNat) : a = b :=
  Char.ext (UInt32.toNat.inj h)

lemma charsLt_asymm : ∀ {l1 l2 : List Char},
    charsLt l1 l2 = true → charsLt l2 l1 = true → False
  | [], [], h1, _ => by simp [charsLt] at h1
  | [], _ :: _, _, h2 => by simp [charsLt] at h2
  | _ :: _, [], h1, _ => by simp [charsLt] at h1
  | a :: as, b :: bs, h1, h2 => by
      simp only [charsLt, Bool.or_eq_true, Bool.and_eq_true,
        decide_eq_true_eq] at h1 h2
      rcases h1 with h1 | ⟨hab, h1⟩
      · rcases h2 with h2 | ⟨hba, _⟩
        · omega
        · rw [hba] at h1
          omega
      · rcases h2 with h2 | ⟨_, h2⟩
        · rw [hab] at h2
          omega
        · exact charsLt_asymm h1 h2

lemma charsLt_trans : ∀ {l1 l2 l3 : List Char},
    charsLt l1 l2 = true → charsLt l2 l3 = true → charsLt l1 l3 = true
  | [], [], _, h1, _ => by simp [charsLt] at h1
  | [], _ :: _, [], _, h2 => by simp [charsLt] at h2
  | [], _ :: _, _ :: _, _, _ => by simp [charsLt]
  | _ :: _, [], _, h1, _ => by simp [charsLt] at h1
  | _ :: _, _ :: _, [], _, h2 => by simp [charsLt] at h2
  | a :: as, b :: bs, c :: cs, h1, h2 => by
      simp only [charsLt, Bool.or_eq_true, Bool.and_eq_true,
        decide_eq_true_eq] at h1 h2 ⊢
      rcases h1 with h1 | ⟨hab, h1⟩
      · rcases h2 with h2 | ⟨hbc, _⟩
        · exact Or.inl (by omega)
        · rw [← hbc]
          exact Or.inl h1
      · rcases h2 with h2 | ⟨hbc, h2⟩
        · rw [hab]
          exact Or.inl h2
        · exact Or.inr ⟨hab.trans hbc, charsLt_trans h1 h2⟩

lemma charsLt_total : ∀ {l1 l2 : List Char}, l1 ≠ l2 →
    charsLt l1 l2 = true ∨ charsLt l2 l1 = true
  | [], [], h => absurd rfl h
  | [], _ :: _, _ => Or.inl (by simp [charsLt])
  | _ :: _, [], _ => Or.inr (by simp [charsLt])
  | a :: as, b :: bs, h => by
      simp only [charsLt, Bool.or_eq_true, Bool.and_eq_true,
        decide_eq_true_eq]
      by_cases hab : a = b
      · subst hab
        have hne : as ≠ bs := fun heq => h (by rw [heq])
        rcases charsLt_total hne with h' | h'
        · exact Or.inl (Or.inr ⟨rfl, h'⟩)
        · exact Or.inr (Or.inr ⟨rfl, h'⟩)
      · have hne : a.toNat ≠ b.toNat := fun heq => hab (charToNat_inj heq)
        rcases Nat.lt_or_ge a.toNat b.toNat with h' | h'
        · exact Or.inl (Or.inl h')
        · exact Or.inr (Or.inl (by omega))

lemma strLt_asymm {a b : String} (h1 : strLt a b = true)
    (h2 : strLt b a = true) : False := charsLt_asymm h1 h2

lemma strLt_trans {a b c : String} (h1 : strLt a b = true)
    (h2 : strLt b c = true) : strLt a c = true := charsLt_trans h1 h2

lemma strLt_total {a b : String} (h : a ≠ b) :
    strLt a b = true ∨ strLt b a = true :=
  charsLt_total (fun heq => h (String.ext heq))

/-- Between entries with distinct keys, the tuple order is the key
order. -/
lemma fle_entry_lt {k1 k2 : String} (v1 v2 : PyVal) (h : k1 ≠ k2) :
    fle (.plist [.pstr k1, v1]) (.plist [.pstr k2, v2]) = strLt k1 k2 := by
  by_cases hlt : strLt k1 k2 = true
  · simp [fle, fcmp, fcmpL, cmp3s, h, hlt, Ordering.then]
  · simp only [Bool.not_eq_true] at hlt
    simp [fle, fcmp, fcmpL, cmp3s, h, hlt, Ordering.then]

/-- On the entries of a dict with pairwise-distinct keys, the tuple
order is total, transitive and antisymmetric. -/
lemma entryFacts (kvs : List (String × PyVal))
    (hnd : (kvs.map Prod.fst).Nodup) :
    (∀ a ∈ kvs.map dictEntry, ∀ b ∈ kvs.map dictEntry,
        fle a b = true ∨ fle b a = true) ∧
    (∀ x ∈ kvs.map dictEntry, ∀ a ∈ kvs.map dictEntry, ∀ b ∈ kvs.map dictEntry,
        fle x a = true → fle a b = true → fle x b = true) ∧
    (∀ a ∈ kvs.map dictEntry, ∀ b ∈ kvs.map dictEntry,
        fle a b = true → fle b a = true → a = b) := by
  have hinj := List.inj_on_of_nodup_map hnd
  have hkey : ∀ a ∈ kvs.map dictEntry, ∀ b ∈ kvs.map dictEntry, a ≠ b →
      ∃ kva kvb : String × PyVal, kva ∈ kvs ∧ kvb ∈ kvs ∧
        a = dictEntry kva ∧ b = dictEntry kvb ∧ kva.1 ≠ kvb.1 := by
    intro a ha b hb hne
    obtain ⟨kva, hkva, rfl⟩ := List.mem_map.mp ha
    obtain ⟨kvb, hkvb, rfl⟩ := List.mem_map.mp hb
    refine ⟨kva, kvb, hkva, hkvb, rfl, rfl, ?_⟩
    intro hfst
    exact hne (by rw [hinj hkva hkvb hfst])
  refine ⟨?_, ?_, ?_⟩
  · intro a ha b hb
    by_cases hab : a = b
    · left; rw [hab]; exact fle_refl b
    · obtain ⟨kva, kvb, _, _, rfl, rfl, hk⟩ := hkey a ha b hb hab
      rcases strLt_total hk with hlt | hgt
      · left; rw [dictEntry, dictEntry, fle_entry_lt _ _ hk]; exact hlt
      · right; rw [dictEntry, dictEntry, fle_entry_lt _ _ (Ne.symm hk)]
        exact hgt
  · intro x hx a ha b hb hxa hab
    by_cases hxaeq : x = a
    · rw [hxaeq]; exact hab
    · by_cases habeq : a = b
      · rw [← habeq]; exact hxa
      · by_cases hxbeq : x = b
        · rw [hxbeq]; exact fle_refl b
        · obtain ⟨kvx, kva, hm1, hm2, rfl, rfl, hk1⟩ := hkey x hx a ha hxaeq
          obtain ⟨kva', kvb, hm2', hm3, ha', rfl, hk2'⟩ := hkey _ ha _ hb habeq
          have hkab : kva.1 ≠ kvb.1 := by
            have hfst : kva.1 = kva'.1 := by
              have h' := ha'
              simp only [dictEntry, PyVal.plist.injEq, List.cons.injEq,
                PyVal.pstr.injEq] at h'
              exact h'.1
            rw [hfst]; exact hk2'
          have hkxb : kvx.1 ≠ kvb.1 := by
            intro heq
            exact hxbeq (by rw [hinj hm1 hm3 heq])
          rw [dictEntry, dictEntry, fle_entry_lt _ _ hk1] at hxa
          have hab' : fle (dictEntry kva) (dictEntry kvb) = true := hab
          rw [dictEntry, dictEntry, fle_entry_lt _ _ hkab] at hab'
          rw [dictEntry, dictEntry, fle_entry_lt _ _ hkxb]
          exact strLt_trans hxa hab'
  · intro a ha b hb hab hba
    by_cases hne : a = b
    · exact hne
    · obtain ⟨kva, kvb, _, _, rfl, rfl, hk⟩ := hkey a ha b hb hne
      rw [dictEntry, dictEntry, fle_entry_lt _ _ hk] at hab
      rw [dictEntry, dictEntry, fle_entry_lt _ _ (Ne.symm hk)] at hba
      exact (strLt_asymm hab hba).elim

/-- Canonicalization makes dict key order irrelevant: freezing two
permutations of the same distinct-keyed bindings gives the same key. -/
lemma freeze_pdict_perm (kvs kvs' : List (String × PyVal))
    (hp : kvs.Perm kvs') (hnd : (kvs.map Prod.fst).Nodup) :
    freeze (.pdict kvs) = freeze (.pdict kvs') := by
  have hnd' : (kvs'.map Prod.fst).Nodup := ((hp.map Prod.fst).nodup_iff).mp hnd
  obtain ⟨ht1, ht2, ht3⟩ := entryFacts kvs hnd
  obtain ⟨ht1', ht2', _⟩ := entryFacts kvs' hnd'
  have hperm : (isort fle (kvs.map dictEntry)).Perm
      (isort fle (kvs'.map dictEntry)) :=
    (isort_perm _ _).trans ((hp.map _).trans (isort_perm _ _).symm)
  have hs1 := isort_pairwise fle _ ht1 ht2
  have hs2 := isort_pairwise fle _ ht1' ht2'
  have heq := sorted_perm_unique fle _ _ hperm hs1 hs2
    (fun a ha b hb => ht3 a ((isort_perm _ _).subset ha)
      b ((isort_perm _ _).subset hb))
  show PyVal.plist (isort fle (freezeKV kvs)) =
    PyVal.plist (isort fle (freezeKV kvs'))
  rw [freezeKV_eq_map, freezeKV_eq_map, heq]

lemma freezeL_eq_map : ∀ l : List PyVal, freezeL l = l.map freeze
  | [] => rfl
  | v :: rest => by simp [freezeL, freezeL_eq_map rest]

/-! ## Claim C1 (Deduplicator canonicalization) -/

/-- A pair of findings that agree on kind and reason and whose metas
differ only in the order of the `event_ids` sequence. -/
def cexF1 : Finding :=
  { reason := "Brute-force suspected against user alice"
    score := 0.95
    kind := "auth.bruteforce_user"
    meta := [("window_sec", .pint 120), ("failures", .pint 10),
             ("user", .pstr "alice"),
             ("event_ids", .plist [.pint 1, .pint 2])] }

def cexF2 : Finding :=
  { reason := "Brute-force suspected against user alice"
    score := 0.95
    kind := "auth.bruteforce_user"
    meta := [("window_sec", .pint 120), ("failures", .pint 10),
             ("user", .pstr "alice"),
             ("event_ids", .plist [.pint 2, .pint 1])] }

/-- Claim C1, counterexample.  The claim asserts that canonicalization
sorts sequence elements, so that two findings with equal kind and
reason whose metas differ only in the order of elements inside a
sequence (`event_ids`) dedupe to the first one.  On the code, `_freeze`
maps a list to a tuple preserving element order, so both findings are
retained. -/
theorem C1_counterexample :
    cexF1.kind = cexF2.kind ∧ cexF1.reason = cexF2.reason ∧
    cexF1.meta.lookup "event_ids" = some (.plist [.pint 1, .pint 2]) ∧
    cexF2.meta.lookup "event_ids" = some (.plist [.pint 2, .pint 1]) ∧
    dedupFindings [cexF1, cexF2] = [cexF1, cexF2] := by
  refine ⟨rfl, rfl, by rfl, by rfl, by rfl⟩

/-- Claim C1, amended.  The Deduplicator computes the structural key
`(kind, reason, canonicalized(meta))`, where canonicalization
recursively sorts mapping keys and set elements but preserves the
element order of sequences; it retains only the first occurrence of
each key, preserving the relative order of retained findings, with
output size at most input size.  (Consequently findings whose metas
differ only in the order of elements inside a sequence are all
retained; the order-independence holds for mapping key order and for
set elements.) -/
theorem C1_dedup_canonicalization :
    (∀ l : List Finding,
      (dedupFindings l).Sublist l ∧
      (dedupFindings l).length ≤ l.length ∧
      ((dedupFindings l).map findingKey).Nodup ∧
      (∀ f ∈ l, findingKey f ∈ (dedupFindings l).map findingKey)) ∧
    (∀ (kvs kvs' : List (String × PyVal)), kvs.Perm kvs' →
      (kvs.map Prod.fst).Nodup →
      freeze (.pdict kvs) = freeze (.pdict kvs')) ∧
    (∀ a b : Int,
      freeze (.pset [.pint a, .pint b]) = freeze (.pset [.pint b, .pint a])) ∧
    (∀ l : List PyVal, freeze (.plist l) = .plist (l.map freeze)) := by
  refine ⟨?_, freeze_pdict_perm, ?_, ?_⟩
  · intro l
    refine ⟨dedupFindings_sublist l, (dedupFindings_sublist l).length_le,
      (dedupGo_keys [] l).2, ?_⟩
    intro f hf
    rcases dedupGo_covers [] l f hf with h | h
    · exact h
    · cases h
  · intro a b
    rcases lt_trichotomy a b with h | h | h
    · simp [freeze, freezeL, isort, insSorted, fle, fcmp, cmp3,
        h, h.ne, h.ne', not_lt_of_gt h, lt_asymm h]
    · subst h
      rfl
    · simp [freeze, freezeL, isort, insSorted, fle, fcmp, cmp3,
        h, h.ne, h.ne', not_lt_of_gt h, lt_asymm h]
  · intro l
    show PyVal.plist (freezeL l) = _
    rw [freezeL_eq_map]

/-- Claim C1, witness for the amended theorem: the dict-key
canonicalization applied at a concrete permutation, and the dedup
properties at a concrete list. -/
theorem C1_witness :
    freeze (.pdict [("a", .pint 1), ("b", .pint 2)]) =
      freeze (.pdict [("b", .pint 2), ("a", .pint 1)]) ∧
    (dedupFindings [cexF1]).Sublist [cexF1] :=
  ⟨C1_dedup_canonicalization.2.1 _ _ (List.Perm.swap _ _ []) (by decide),
   (C1_dedup_canonicalization.1 [cexF1]).1⟩

/-! ## Claim C4 (integer coercion) -/

/-- Declarative validity of a digit-body continuation: only digits and
underscores, no two adjacent underscores, and a digit at the end (an
empty continuation is fine — the first digit was already consumed). -/
def digitTailOK (l : List Char) : Bool :=
  l.all (fun c => c.isDigit || c = '_') &&
  (l.zip l.tail).all (fun p => !(p.1 = '_' && p.2 = '_')) &&
  (match l.getLast? with
   | some c => c.isDigit
   | none => true)

/-- Declarative validity of a full digit body: nonempty, starts with a
digit, and the whole body satisfies `digitTailOK`. -/
def isIntBodyStr : List Char → Bool
  | [] => false
  | l@(c :: _) => c.isDigit && digitTailOK l

/-- The spec-side notion of an integer-looking string: after stripping
surrounding whitespace, an optional single sign followed by a valid
digit body. -/
def isIntLikeStr (s : String) : Bool :=
  match pyStripChars s.data with
  | '-' :: rest => isIntBodyStr rest
  | '+' :: rest => isIntBodyStr rest
  | l => isIntBodyStr l

lemma underscoreNotDigit : ('_' : Char).isDigit = false := rfl

lemma digitTailOK_cons_digit {c : Char} (rest : List Char)
    (h : c.isDigit = true) : digitTailOK (c :: rest) = digitTailOK rest := by
  have hne : c ≠ '_' := by
    intro heq; rw [heq] at h; simp [underscoreNotDigit] at h
  rcases rest with _ | ⟨d, rest2⟩
  · simp [digitTailOK, h]
  · simp [digitTailOK, h, hne, List.getLast?_cons_cons]

lemma digitTailOK_underscore {d : Char} (rest2 : List Char)
    (hd : d.isDigit = true) :
    digitTailOK ('_' :: d :: rest2) = digitTailOK (d :: rest2) := by
  have hne : d ≠ '_' := by
    intro heq; rw [heq] at hd; simp [underscoreNotDigit] at hd
  simp [digitTailOK, hd, hne, List.getLast?_cons_cons]

lemma digitsVal_isSome : ∀ (l : List Char) (acc : Nat),
    (digitsVal acc l).isSome = digitTailOK l
  | [], _ => by simp [digitsVal, digitTailOK]
  | c :: rest, _ => by
      by_cases hc : c.isDigit = true
      · rw [digitsVal.eq_def]
        simp only [hc, if_true]
        rw [digitsVal_isSome rest _, digitTailOK_cons_digit rest hc]
      · by_cases hu : c = '_'
        · subst hu
          rcases rest with _ | ⟨d, rest2⟩
          · simp [digitsVal.eq_def, digitTailOK]
          · by_cases hd : d.isDigit = true
            · rw [digitsVal.eq_def]
              simp only [underscoreNotDigit, Bool.false_eq_true, if_false,
                if_true, hd, reduceIte]
              rw [digitsVal_isSome rest2 _, digitTailOK_underscore rest2 hd,
                digitTailOK_cons_digit rest2 hd]
            · rw [digitsVal.eq_def]
              simp only [underscoreNotDigit, Bool.false_eq_true, if_false, hd,
                reduceIte]
              by_cases hdu : d = '_'
              · subst hdu
                simp [digitTailOK]
              · simp [digitTailOK, hd, hdu]
        · rw [digitsVal.eq_def]
          simp only [hc, hu, if_false, reduceIte]
          simp [digitTailOK, hc, hu]

lemma parseDigitBody_isSome : ∀ l : List Char,
    (parseDigitBody l).isSome = isIntBodyStr l
  | [] => by simp [parseDigitBody, isIntBodyStr]
  | c :: rest => by
      by_cases hc : c.isDigit = true
      · simp [parseDigitBody, hc, isIntBodyStr, digitsVal_isSome,
          digitTailOK_cons_digit rest hc]
      · simp [parseDigitBody, hc, isIntBodyStr]

lemma parseSigned_default {c : Char} {rest : List Char} (h1 : c ≠ '-')
    (h2 : c ≠ '+') :
    parseSigned (c :: rest) =
      (parseDigitBody (c :: rest)).map (fun n => (n : Int)) := by
  unfold parseSigned
  split
  · rename_i heq
    injection heq with hh _
    exact absurd hh h1
  · rename_i heq
    injection heq with hh _
    exact absurd hh h2
  · rfl

lemma isIntLikeStr_cons_default {c : Char} {rest : List Char} (h1 : c ≠ '-')
    (h2 : c ≠ '+') (s : String) (hs : pyStripChars s.data = c :: rest) :
    isIntLikeStr s = isIntBodyStr (c :: rest) := by
  unfold isIntLikeStr
  rw [hs]
  split
  · rename_i heq
    injection heq with hh _
    exact absurd hh h1
  · rename_i heq
    injection heq with hh _
    exact absurd hh h2
  · rfl

/-- Claim C4, counterexample.  The claim asserts the result is `None`
for every input that is not an unsigned-integer-looking string or
number, explicitly including negative numbers; but `int()` accepts a
leading sign and negative integers, so `_as_int` parses them. -/
theorem C4_counterexample :
    _as_int (.astr "-5") = some (-5) ∧ _as_int (.aint (-7)) = some (-7) :=
  ⟨rfl, rfl⟩

/-- Claim C4, amended.  During normalization the status field parses
via Python `int()`: an integer value passes through unchanged
(negatives included), and a string parses exactly when its
whitespace-stripped form is an optionally signed digit sequence (with
single underscores allowed between digits); `None` and every
non-integer-looking string yield `None`. -/
theorem C4_as_int_signed :
    (∀ n : Int, _as_int (.aint n) = some n) ∧
    (_as_int .anone = none) ∧
    (∀ s : String, (_as_int (.astr s)).isSome = isIntLikeStr s) := by
  refine ⟨fun _ => rfl, rfl, fun s => ?_⟩
  show (parseSigned (pyStripChars s.data)).isSome = isIntLikeStr s
  rcases hs : pyStripChars s.data with _ | ⟨c, rest⟩
  · unfold isIntLikeStr
    rw [hs]
    simp [parseSigned, parseDigitBody, isIntBodyStr]
  · by_cases h1 : c = '-'
    · subst h1
      unfold isIntLikeStr
      rw [hs]
      rcases hp : parseDigitBody rest with _ | n <;>
        simp [parseSigned, hp, ← parseDigitBody_isSome]
    · by_cases h2 : c = '+'
      · subst h2
        unfold isIntLikeStr
        rw [hs]
        rcases hp : parseDigitBody rest with _ | n <;>
          simp [parseSigned, hp, ← parseDigitBody_isSome]
      · rw [parseSigned_default h1 h2, isIntLikeStr_cons_default h1 h2 s hs]
        rcases hp : parseDigitBody (c :: rest) with _ | n <;>
          simp [hp, ← parseDigitBody_isSome]

/-! ## Claim C8 (totality) -/

/-- Claim C8, counterexample.  The claim asserts `detect_anomalies`
never raises for any input batch, but a batch whose parsed timestamps
mix a tz-aware and a tz-naive datetime makes Python's `sorted` raise
`TypeError` while building `time_sorted` (modelled as the `Except`
error). -/
theorem C8_counterexample :
    detect_anomalies
      [{ ts := .tdt ⟨0, some 0⟩ }, { ts := .tdt ⟨1, none⟩ }] = .error () := by
  rfl

/-- Claim C8, amended.  The coercions are total — `_as_dt`, `_as_int`
and `_host` return `none` or the empty string on missing or malformed
input rather than erroring — and an empty input batch yields an empty
output list; `detect_anomalies` itself never raises provided the
batch's parsed timestamps do not mix tz-aware and tz-naive datetimes
(a mixed batch raises `TypeError` in the time-sorting step, per the
counterexample). -/
theorem C8_totality :
    (detect_anomalies [] = .ok []) ∧
    (_as_dt .tnone = none) ∧
    (_as_dt (.tstr "not-a-timestamp") = none) ∧
    (_as_dt (.tstr "2024-13-40T99:99:99") = none) ∧
    (_as_int .anone = none) ∧
    (_as_int (.astr "12a7") = none) ∧
    (_host none = "") ∧
    (_host (some "") = "") ∧
    (_host (some "not a url") = "") ∧
    (∀ es : List RawEvent, mixedAwareness (es.map normOne) = false →
      ∃ out, detect_anomalies es = .ok out) := by
  refine ⟨rfl, rfl, rfl, rfl, rfl, rfl, rfl, rfl, rfl, fun es hmix => ?_⟩
  by_cases hemp : es.isEmpty = true
  · exact ⟨[], by rw [detect_anomalies, if_pos hemp]⟩
  · rw [detect_anomalies, if_neg hemp]
    simp only
    rw [timeSortedE]
    simp only [hmix, Bool.false_eq_true, if_false]
    exact ⟨_, rfl⟩

/-- Claim C8, witness: the amended theorem applied to a concrete
uniformly-naive two-event batch. -/
theorem C8_witness :
    ∃ out, detect_anomalies
      [{ ts := .tdt ⟨0, none⟩, status := .aint 200, event_id := some 1 },
       { ts := .tdt ⟨3600, none⟩, status := .aint 500 }] = .ok out :=
  C8_totality.2.2.2.2.2.2.2.2.2 _ (by rfl)

/-! ## Claim C5 (high error rate) -/

lemma pctStr_65 :
    pctStr (((13 : Nat) : Rat) / ((max 1 20 : Nat) : Rat)) = "65%" := by
  rw [pctStr]
  norm_num [round_eq]
  rfl

/-- Claim C5.  A 10-minute bucket (keyed by user or host) holding
exactly 20 events of which 13 have a status in `[400,600)` emits
exactly one finding, scored 0.75; a bucket of at most 19 events emits
none regardless of its error ratio; score 0.82 occurs only when the
error ratio reaches 0.8; and the pass is exactly the per-bucket
emission applied to every bucket of the grouping. -/
theorem C5_high_error_rate :
    (∀ (kindTag who : String) (lst : List Norm),
      lst.length = 20 → errCount lst = 13 →
      errBucketFindings kindTag who lst =
        [⟨"High error rate (65%) in 10-min window for " ++ who, 0.75,
          "web.error_" ++ kindTag,
          [("events", .pint 20), ("errors", .pint 13),
           ("event_ids", .plist
             ((((lst.filter (fun e => truthyId e.event_id)).filterMap
                 (fun e => e.event_id)).take 50).map .pint))]⟩]) ∧
    (∀ (kindTag who : String) (lst : List Norm), lst.length ≤ 19 →
      errBucketFindings kindTag who lst = []) ∧
    (∀ (kindTag who : String) (lst : List Norm) (f : Finding),
      f ∈ errBucketFindings kindTag who lst → f.score = 0.82 →
      ((errCount lst : Nat) : Rat) / ((max 1 lst.length : Nat) : Rat) ≥ 0.8) ∧
    (∀ tsorted : List Norm,
      highErrorPass tsorted = (errBuckets tsorted).flatMap
        (fun b => errBucketFindings b.1.1 b.1.2.1 b.2)) := by
  refine ⟨?_, ?_, ?_, fun _ => rfl⟩
  · intro kindTag who lst hlen herr
    rw [errBucketFindings]
    rw [if_neg (by omega)]
    simp only [herr, hlen]
    have hge : ((13 : Nat) : Rat) / ((max 1 20 : Nat) : Rat) ≥ 0.65 := by
      norm_num
    have hlt : ¬ (((13 : Nat) : Rat) / ((max 1 20 : Nat) : Rat) ≥ 0.8) := by
      norm_num
    rw [if_pos hge, if_neg hlt, pctStr_65]
    norm_num
    rfl
  · intro kindTag who lst hlen
    rw [errBucketFindings]
    rw [if_pos (by omega)]
  · intro kindTag who lst f hf hscore
    rw [errBucketFindings] at hf
    by_cases hlen : lst.length < 20
    · rw [if_pos hlen] at hf
      cases hf
    · rw [if_neg hlen] at hf
      simp only at hf
      by_cases hr : ((errCount lst : Nat) : Rat) /
          ((max 1 lst.length : Nat) : Rat) ≥ 0.65
      · rw [if_pos hr] at hf
        by_cases h08 : ((errCount lst : Nat) : Rat) /
            ((max 1 lst.length : Nat) : Rat) ≥ 0.8
        · exact h08
        · exfalso
          rcases List.mem_singleton.mp hf with rfl
          rw [if_neg h08] at hscore
          simp only at hscore
          norm_num at hscore
      · rw [if_neg hr] at hf
        cases hf

/-- Claim C5, witness: a concrete 20-event bucket with 13 errors for
user "bob" emits exactly the 0.75-scored finding, and a 19-event
bucket emits nothing. -/
theorem C5_witness :
    errBucketFindings "user" "bob"
        (List.replicate 13 ⟨none, some 500, "", "bob", "", "", "", "", "", none⟩ ++
         List.replicate 7 ⟨none, some 200, "", "bob", "", "", "", "", "", none⟩) =
      [⟨"High error rate (65%) in 10-min window for bob", 0.75,
        "web.error_user",
        [("events", .pint 20), ("errors", .pint 13),
         ("event_ids", .plist [])]⟩] ∧
    errBucketFindings "user" "bob"
        (List.replicate 19 ⟨none, some 500, "", "bob", "", "", "", "", "", none⟩) = [] := by
  constructor
  · rw [C5_high_error_rate.1 "user" "bob" _ (by rfl) (by rfl)]
    rfl
  · exact C5_high_error_rate.2.1 "user" "bob" _ (by rfl)

/-! ## Claim C6 (rare user-agent) -/

lemma rareUAReason_inj {a b : String} (h : rareUAReason a = rareUAReason b) :
    a = b := by
  unfold rareUAReason at h
  have hd := congrArg String.data h
  simp only [String.data_append, List.append_assoc] at hd
  exact String.ext (List.append_inj_left' (List.append_inj_right hd rfl) rfl)

lemma rareUAGo_count (norm : List Norm) (cnt : String → Nat) (ua : String) :
    ∀ (l : List Norm) (seen : List String),
      (rareUAGo norm cnt l seen).countP
          (fun f => f.reason == rareUAReason ua) =
        (if ua ≠ "" ∧ ua ∉ seen ∧ cnt ua < 2 ∧ ua ∈ l.map Norm.user_agent
         then 1 else 0) := by
  intro l
  induction l with
  | nil => intro seen; simp [rareUAGo]
  | cons ev rest ih =>
      intro seen
      rw [rareUAGo]
      by_cases hskip : ev.user_agent = "" ∨ ev.user_agent ∈ seen
      · rw [if_pos hskip, ih seen]
        by_cases hua : ev.user_agent = ua
        · rw [hua] at hskip
          rcases hskip with h | h
          · simp [h]
          · simp [h]
        · congr 1
          simp only [List.map_cons, List.mem_cons, eq_comm (a := ua)]
          simp [hua, Ne.symm hua]
      · rw [if_neg hskip]
        push_neg at hskip
        obtain ⟨hne, hnotseen⟩ := hskip
        by_cases hcnt : cnt ev.user_agent < 2
        · rw [if_pos hcnt]
          rw [List.countP_cons]
          by_cases hua : ev.user_agent = ua
          · simp only [List.map_cons]
            rw [hua] at hne hnotseen hcnt
            simp only [hua]
            have hhead : ((rareUAFinding norm (cnt ua) ua).reason ==
                rareUAReason ua) = true := by
              simp [rareUAFinding]
            simp only [hhead, if_true]
            rw [ih (ua :: seen)]
            rw [if_neg (fun hcond => hcond.2.1 (List.mem_cons_self ua seen))]
            rw [if_pos ⟨hne, hnotseen, hcnt, List.mem_cons_self ua _⟩]
          · have hbeq : ((rareUAFinding norm (cnt ev.user_agent)
                ev.user_agent).reason == rareUAReason ua) = false := by
              simp only [rareUAFinding, beq_eq_false_iff_ne, ne_eq]
              intro hr
              exact hua (rareUAReason_inj hr)
            rw [hbeq]
            rw [ih (ev.user_agent :: seen)]
            have hx : ua ≠ ev.user_agent := fun h => hua h.symm
            simp only [List.map_cons, List.mem_cons, cond_false, Nat.add_zero,
              Bool.false_eq_true, if_false]
            split_ifs with hA hB <;> (simp_all; try tauto)
        · rw [if_neg hcnt, ih seen]
          by_cases hua : ev.user_agent = ua
          · rw [hua] at hcnt
            simp [hcnt]
          · congr 1
            simp only [List.map_cons, List.mem_cons]
            simp [Ne.symm hua]

lemma rareUAGo_mem (norm : List Norm) (cnt : String → Nat) :
    ∀ (l : List Norm) (seen : List String) (f : Finding),
      f ∈ rareUAGo norm cnt l seen →
      ∃ ua, ua ≠ "" ∧ cnt ua < 2 ∧ f = rareUAFinding norm (cnt ua) ua := by
  intro l
  induction l with
  | nil => intro seen f hf; simp [rareUAGo] at hf
  | cons ev rest ih =>
      intro seen f hf
      rw [rareUAGo] at hf
      by_cases hskip : ev.user_agent = "" ∨ ev.user_agent ∈ seen
      · rw [if_pos hskip] at hf
        exact ih seen f hf
      · rw [if_neg hskip] at hf
        push_neg at hskip
        by_cases hcnt : cnt ev.user_agent < 2
        · rw [if_pos hcnt] at hf
          rcases List.mem_cons.mp hf with heq | hf2
          · exact ⟨ev.user_agent, hskip.1, hcnt, heq⟩
          · exact ih _ f hf2
        · rw [if_neg hcnt] at hf
          exact ih seen f hf


/-- Claim C6.  For every nonempty user-agent string occurring exactly
once in the batch, the rare-user-agent pass emits exactly one
`web.rare_ua` finding (identified by its reason line) with score 0.62;
for every user-agent occurring twice or more it emits none; and each
distinct user-agent yields at most one finding. -/
theorem C6_rare_ua :
    (∀ (norm : List Norm) (ua : String), ua ≠ "" → uaCount norm ua = 1 →
      (rareUAPass norm).countP (fun f => f.reason == rareUAReason ua) = 1 ∧
      ∀ f ∈ rareUAPass norm, f.reason = rareUAReason ua →
        f.kind = "web.rare_ua" ∧ f.score = 0.62) ∧
    (∀ (norm : List Norm) (ua : String), 2 ≤ uaCount norm ua →
      (rareUAPass norm).countP (fun f => f.reason == rareUAReason ua) = 0) ∧
    (∀ (norm : List Norm) (ua : String),
      (rareUAPass norm).countP (fun f => f.reason == rareUAReason ua) ≤ 1) := by
  refine ⟨?_, ?_, ?_⟩
  · intro norm ua hne hcount
    constructor
    · rw [rareUAPass, rareUAGo_count]
      rw [if_pos ?cond]
      case cond =>
        refine ⟨hne, by simp, by omega, ?_⟩
        have hpos : 0 < norm.countP (fun e => e.user_agent == ua) := by
          rw [uaCount, if_neg hne] at hcount
          omega
        obtain ⟨e, he, hbe⟩ := List.countP_pos_iff.mp hpos
        exact List.mem_map.mpr ⟨e, he, by simpa using hbe⟩
    · intro f hf hreason
      obtain ⟨ua2, _, _, rfl⟩ := rareUAGo_mem norm (uaCount norm) norm [] f hf
      have : ua2 = ua := rareUAReason_inj hreason
      subst this
      rw [hcount]
      exact ⟨rfl, by simp [rareUAFinding]⟩
  · intro norm ua hcount
    rw [rareUAPass, rareUAGo_count, if_neg]
    intro hcond
    omega
  · intro norm ua
    rw [rareUAPass, rareUAGo_count]
    split_ifs <;> omega

/-- Claim C6, witness: a one-event batch with user-agent "curl" gets
exactly one rare-UA finding. -/
theorem C6_witness :
    (rareUAPass [⟨none, none, "", "", "curl", "", "", "", "", none⟩]).countP
        (fun f => f.reason == rareUAReason "curl") = 1 :=
  (C6_rare_ua.1 [⟨none, none, "", "", "curl", "", "", "", "", none⟩] "curl"
    (by decide) (by rfl)).1

/-! ## Claim C3 (determinism and pipeline idempotence) -/

/-- Claim C3.  `detect_anomalies` is deterministic (in the embedding it
is a pure function, so running it twice on the same batch yields the
same result definitionally), and the full pipeline is idempotent:
re-applying the Deduplicator to any successful output changes
nothing, so running detection-plus-deduplication twice on the same
batch yields the identical output list. -/
theorem C3_deterministic_idempotent :
    (∀ es : List RawEvent, detect_anomalies es = detect_anomalies es) ∧
    (∀ (es : List RawEvent) (out : List Finding),
        detect_anomalies es = .ok out → dedupFindings out = out) := by
  refine ⟨fun _ => rfl, fun es out h => ?_⟩
  by_cases hemp : es.isEmpty = true
  · rw [detect_anomalies, if_pos hemp] at h
    injection h with h2
    rw [← h2]
    rfl
  · rw [detect_anomalies, if_neg hemp] at h
    simp only at h
    rcases hts : timeSortedE (es.map normOne) with e | tsorted
    · rw [hts] at h
      simp at h
    · rw [hts] at h
      simp only at h
      injection h with h2
      rw [← h2]
      exact dedupFindings_idem _

/-- Claim C3, witness: the theorem applied to a concrete one-event
batch whose output contains a finding. -/
theorem C3_witness :
    ∃ out : List Finding,
      detect_anomalies
        [{ user_agent := some "curl", event_id := some 1 }] = .ok out ∧
      dedupFindings out = out :=
  ⟨_, rfl,
    C3_deterministic_idempotent.2
      [{ user_agent := some "curl", event_id := some 1 }] _ rfl⟩


/-! ## Claim C7 (output invariants: score range and event_ids cap) -/

/-- The per-finding invariant of claim C7. -/
def GoodFinding (f : Finding) : Prop :=
  0 ≤ f.score ∧ f.score ≤ 1 ∧
  ∃ ids : List PyVal, f.meta.lookup "event_ids" = some (.plist ids) ∧
    ids.length ≤ 50

lemma mem_ite_singleton {α : Type _} {c : Prop} [Decidable c] {x f : α}
    (h : f ∈ (if c then [x] else ([] : List α))) : f = x := by
  split at h
  · exact List.mem_singleton.mp h
  · cases h

lemma good_pwdMfa (norm : List Norm) : ∀ f ∈ pwdMfaPass norm, GoodFinding f := by
  intro f hf
  rcases List.mem_append.mp hf with h | h <;>
    obtain ⟨b, _, rfl⟩ := List.mem_map.mp h <;>
    refine ⟨by norm_num, by norm_num,
      ⟨(b.2.take 50).map .pint, by simp [List.lookup], ?_⟩⟩ <;>
    · simp only [List.length_map, List.length_take]
      omega

lemma good_bfUser (u : String) (q : List WEntry) :
    GoodFinding (bfUserFinding u q) := by
  refine ⟨by norm_num [bfUserFinding], by norm_num [bfUserFinding],
    ⟨(windowIds q).map .pint, by simp [bfUserFinding, List.lookup], ?_⟩⟩
  simp only [List.length_map, windowIds, List.length_take]
  omega

lemma good_bfPair (u ip : String) (q : List WEntry) :
    GoodFinding (bfPairFinding u ip q) := by
  refine ⟨by norm_num [bfPairFinding], by norm_num [bfPairFinding],
    ⟨(windowIds q).map .pint, by simp [bfPairFinding, List.lookup], ?_⟩⟩
  simp only [List.length_map, windowIds, List.length_take]
  omega

lemma bruteStep_acc (P : Finding → Prop)
    (hU : ∀ u q, P (bfUserFinding u q))
    (hP2 : ∀ u ip q, P (bfPairFinding u ip q))
    (st : BFState) (ev : Norm)
    (h : ∀ f ∈ st.acc, P f) :
    ∀ f ∈ (bruteStep st ev).acc, P f := by
  intro f hf
  rw [bruteStep] at hf
  split at hf
  · exact h f hf
  · split at hf
    · exact h f hf
    · simp only at hf
      rcases List.mem_append.mp hf with h1 | h1
      · rcases List.mem_append.mp h1 with h2 | h2
        · exact h f h2
        · rcases mem_ite_singleton h2 with rfl
          exact hU _ _
      · rcases mem_ite_singleton h1 with rfl
        exact hP2 _ _ _

lemma brutePass_acc (P : Finding → Prop)
    (hU : ∀ u q, P (bfUserFinding u q))
    (hP2 : ∀ u ip q, P (bfPairFinding u ip q))
    (tsorted : List Norm) :
    ∀ f ∈ brutePass tsorted, P f := by
  suffices hgen : ∀ (l : List Norm) (st : BFState),
      (∀ f ∈ st.acc, P f) →
      ∀ f ∈ (l.foldl bruteStep st).acc, P f by
    exact hgen tsorted ⟨[], [], []⟩ (by intro f hf; cases hf)
  intro l
  induction l with
  | nil => intro st h; exact h
  | cons ev rest ih =>
      intro st h
      exact ih (bruteStep st ev) (bruteStep_acc P hU hP2 st ev h)

lemma good_brutePass (tsorted : List Norm) :
    ∀ f ∈ brutePass tsorted, GoodFinding f :=
  brutePass_acc GoodFinding good_bfUser good_bfPair tsorted

lemma good_blocked (norm : List Norm) :
    ∀ f ∈ blockedPass norm, GoodFinding f := by
  intro f hf
  rw [blockedPass] at hf
  obtain ⟨ev, _, hf2⟩ := List.mem_flatMap.mp hf
  split at hf2
  · rcases List.mem_singleton.mp hf2 with rfl
    refine ⟨by norm_num, by norm_num,
      ⟨(if truthyId ev.event_id = true then [PyVal.pint (ev.event_id.getD 0)] else []),
        by simp [List.lookup], ?_⟩⟩
    split <;> simp
  · cases hf2

lemma good_highRisk (norm : List Norm) :
    ∀ f ∈ highRiskPass norm, GoodFinding f := by
  intro f hf
  rw [highRiskPass] at hf
  obtain ⟨ev, _, hf2⟩ := List.mem_flatMap.mp hf
  split at hf2
  · simp only at hf2
    rcases List.mem_singleton.mp hf2 with rfl
    refine ⟨?_, ?_,
      ⟨(if truthyId ev.event_id = true then [PyVal.pint (ev.event_id.getD 0)] else []),
        by simp [List.lookup], ?_⟩⟩
    · exact le_min (by norm_num) (le_max_left _ _)
    · exact min_le_left _ _
    · split <;> simp
  · split at hf2
    · rcases List.mem_singleton.mp hf2 with rfl
      refine ⟨by norm_num, by norm_num,
        ⟨(if truthyId ev.event_id = true then [PyVal.pint (ev.event_id.getD 0)] else []),
          by simp [List.lookup], ?_⟩⟩
      split <;> simp
    · cases hf2

lemma good_highError (tsorted : List Norm) :
    ∀ f ∈ highErrorPass tsorted, GoodFinding f := by
  intro f hf
  rw [highErrorPass] at hf
  obtain ⟨b, _, hf2⟩ := List.mem_flatMap.mp hf
  rw [errBucketFindings] at hf2
  split at hf2
  · cases hf2
  · simp only at hf2
    split at hf2
    · rcases List.mem_singleton.mp hf2 with rfl
      refine ⟨?_, ?_,
        ⟨List.map PyVal.pint (List.take 50 (List.filterMap (fun e => e.event_id)
            (List.filter (fun e => truthyId e.event_id) b.2))),
          by simp [List.lookup], ?_⟩⟩
      · split <;> norm_num
      · split <;> norm_num
      · simp only [List.length_map, List.length_take]
        omega
    · cases hf2

lemma good_rareUA (norm : List Norm) :
    ∀ f ∈ rareUAPass norm, GoodFinding f := by
  intro f hf
  obtain ⟨ua, _, _, rfl⟩ := rareUAGo_mem norm (uaCount norm) norm [] f hf
  refine ⟨?_, ?_,
    ⟨(((norm.filter (fun e =>
          e.user_agent = ua ∧ truthyId e.event_id)).filterMap
        (fun e => e.event_id)).take 10).map .pint,
      by simp [rareUAFinding, List.lookup], ?_⟩⟩
  · simp only [rareUAFinding]
    split <;> norm_num
  · simp only [rareUAFinding]
    split <;> norm_num
  · simp only [List.length_map, List.length_take]
    omega

lemma good_offHoursFinding (ids : List Int) :
    GoodFinding { reason := "Off-hours successful logins detected"
                  score := 0.55
                  kind := "auth.offhours"
                  meta := [("event_ids", .plist ((ids.take 50).map .pint))] } := by
  refine ⟨by norm_num, by norm_num,
    ⟨(ids.take 50).map .pint, by simp [List.lookup], ?_⟩⟩
  simp only [List.length_map, List.length_take]
  omega

lemma good_offHours (tsorted : List Norm) :
    ∀ f ∈ offHoursPass tsorted, GoodFinding f := by
  intro f hf
  simp only [offHoursPass] at hf
  rcases mem_ite_singleton hf with rfl
  exact good_offHoursFinding _

lemma good_tokenFinding (host : String) (q : List WEntry) :
    GoodFinding (tokenFinding host q) := by
  refine ⟨by norm_num [tokenFinding], by norm_num [tokenFinding],
    ⟨(windowIds q).map .pint, by simp [tokenFinding, List.lookup], ?_⟩⟩
  simp only [List.length_map, windowIds, List.length_take]
  omega

lemma tokenStep_acc (P : Finding → Prop)
    (hT : ∀ host q, P (tokenFinding host q))
    (st : TKState) (ev : Norm)
    (h : ∀ f ∈ st.acc, P f) :
    ∀ f ∈ (tokenStep st ev).acc, P f := by
  intro f hf
  rw [tokenStep] at hf
  split at hf
  · exact h f hf
  · split at hf
    · exact h f hf
    · split at hf
      · exact h f hf
      · split at hf
        · simp only at hf
          split at hf
          · simp only at hf
            rcases List.mem_append.mp hf with h1 | h1
            · exact h f h1
            · rcases List.mem_singleton.mp h1 with rfl
              exact hT _ _
          · simp only at hf
            exact h f hf
        · simp only at hf
          split at hf
          · simp only at hf
            rcases List.mem_append.mp hf with h1 | h1
            · exact h f h1
            · rcases List.mem_singleton.mp h1 with rfl
              exact hT _ _
          · simp only at hf
            exact h f hf

lemma tokenPass_acc (P : Finding → Prop)
    (hT : ∀ host q, P (tokenFinding host q))
    (tsorted : List Norm) :
    ∀ f ∈ tokenPass tsorted, P f := by
  suffices hgen : ∀ (l : List Norm) (st : TKState),
      (∀ f ∈ st.acc, P f) →
      ∀ f ∈ (l.foldl tokenStep st).acc, P f by
    exact hgen tsorted ⟨[], []⟩ (by intro f hf; cases hf)
  intro l
  induction l with
  | nil => intro st h; exact h
  | cons ev rest ih =>
      intro st h
      exact ih (tokenStep st ev) (tokenStep_acc P hT st ev h)

lemma good_tokenPass (tsorted : List Norm) :
    ∀ f ∈ tokenPass tsorted, GoodFinding f :=
  tokenPass_acc GoodFinding good_tokenFinding tsorted

/-- Claim C7.  Every finding returned by a successful run of
`detect_anomalies` carries a score in the interval `[0, 1]` and a meta
mapping binding the key `"event_ids"` to a sequence of at most 50
event identifiers (possibly empty). -/
theorem C7_output_invariants :
    ∀ (es : List RawEvent) (out : List Finding),
      detect_anomalies es = .ok out → ∀ f ∈ out,
      0 ≤ f.score ∧ f.score ≤ 1 ∧
      ∃ ids : List PyVal, f.meta.lookup "event_ids" = some (.plist ids) ∧
        ids.length ≤ 50 := by
  intro es out h f hf
  by_cases hemp : es.isEmpty = true
  · rw [detect_anomalies, if_pos hemp] at h
    injection h with h2
    rw [← h2] at hf
    cases hf
  · rw [detect_anomalies, if_neg hemp] at h
    simp only at h
    rcases hts : timeSortedE (es.map normOne) with e | tsorted
    · rw [hts] at h
      simp at h
    · rw [hts] at h
      simp only at h
      injection h with h2
      rw [← h2] at hf
      have hf2 := mem_of_mem_dedup hf
      simp only [List.mem_append] at hf2
      rcases hf2 with ((((((h0 | h1) | h2) | h3) | h4) | h5) | h6) | h7
      · exact good_pwdMfa _ f h0
      · exact good_brutePass _ f h1
      · exact good_blocked _ f h2
      · exact good_highRisk _ f h3
      · exact good_highError _ f h4
      · exact good_rareUA _ f h5
      · exact good_offHours _ f h6
      · exact good_tokenPass _ f h7

/-- Claim C7, witness: the theorem applied to a concrete one-event
batch, whose single rare-user-agent finding satisfies the invariant. -/
theorem C7_witness :
    0 ≤ (Finding.mk (rareUAReason "wget") 0.62 "web.rare_ua"
        [("count", .pint 1), ("event_ids", .plist [.pint 7])]).score ∧
    (Finding.mk (rareUAReason "wget") 0.62 "web.rare_ua"
        [("count", .pint 1), ("event_ids", .plist [.pint 7])]).score ≤ 1 ∧
    ∃ ids : List PyVal,
      (Finding.mk (rareUAReason "wget") 0.62 "web.rare_ua"
        [("count", .pint 1), ("event_ids", .plist [.pint 7])]).meta.lookup
          "event_ids" = some (.plist ids) ∧ ids.length ≤ 50 :=
  C7_output_invariants [{ user_agent := some "wget", event_id := some 7 }]
    [Finding.mk (rareUAReason "wget") 0.62 "web.rare_ua"
        [("count", .pint 1), ("event_ids", .plist [.pint 7])]] rfl _
    (List.mem_singleton.mpr rfl)


/-! ## Claim C9 (no mutation of the input batch) -/

lemma normalizeThread_eq (es : List RawEvent) :
    normalizeThread es = (es, es.map normOne) := by
  induction es with
  | nil => rfl
  | cons e rest ih =>
      rw [normalizeThread, ih]
      rfl

/-- Claim C9.  `detect_anomalies` never mutates its input: in the
state-passing rendition `detect_anomalies_st`, where the caller\x27s
batch is threaded as explicit state, the batch handed back is the
input unchanged, and the result agrees with the direct function
`detect_anomalies`. -/
theorem C9_no_input_mutation :
    ∀ es : List RawEvent,
      (detect_anomalies_st es).1 = es ∧
      (detect_anomalies_st es).2 = detect_anomalies es := by
  intro es
  by_cases hemp : es.isEmpty = true
  · rw [detect_anomalies_st, if_pos hemp, detect_anomalies, if_pos hemp]
    exact ⟨rfl, rfl⟩
  · rw [detect_anomalies_st, if_neg hemp, detect_anomalies, if_neg hemp]
    simp only [normalizeThread_eq]
    exact ⟨trivial, trivial⟩


/-! ## Claim C10 (failures dominate event_ids in window findings) -/

/-- The three window-based finding kinds claim C10 speaks about. -/
def BurstKind (f : Finding) : Prop :=
  f.kind = "auth.bruteforce_user" ∨ f.kind = "auth.bruteforce_pair" ∨
  f.kind = "auth.token_fail_burst"

/-- Claim C10\x27s per-finding property: a `failures` count that
dominates the length of `event_ids`. -/
def FailGood (f : Finding) : Prop :=
  ∃ (n : Nat) (ids : List PyVal),
    f.meta.lookup "failures" = some (.pint n) ∧
    f.meta.lookup "event_ids" = some (.plist ids) ∧
    ids.length ≤ n

lemma fail_bfUser (u : String) (q : List WEntry) :
    FailGood (bfUserFinding u q) := by
  refine ⟨q.length, (windowIds q).map .pint,
    by simp [bfUserFinding, List.lookup], by simp [bfUserFinding, List.lookup], ?_⟩
  simp only [List.length_map, windowIds, List.length_take]
  have := List.length_filterMap_le (fun w => w.eid) q
  omega

lemma fail_bfPair (u ip : String) (q : List WEntry) :
    FailGood (bfPairFinding u ip q) := by
  refine ⟨q.length, (windowIds q).map .pint,
    by simp [bfPairFinding, List.lookup], by simp [bfPairFinding, List.lookup], ?_⟩
  simp only [List.length_map, windowIds, List.length_take]
  have := List.length_filterMap_le (fun w => w.eid) q
  omega

lemma fail_token (host : String) (q : List WEntry) :
    FailGood (tokenFinding host q) := by
  refine ⟨q.length, (windowIds q).map .pint,
    by simp [tokenFinding, List.lookup], by simp [tokenFinding, List.lookup], ?_⟩
  simp only [List.length_map, windowIds, List.length_take]
  have := List.length_filterMap_le (fun w => w.eid) q
  omega

lemma kind_pwdMfa (norm : List Norm) :
    ∀ f ∈ pwdMfaPass norm,
      f.kind = "auth.password_reset" ∨ f.kind = "auth.mfa_activity" := by
  intro f hf
  rcases List.mem_append.mp hf with h | h <;>
    obtain ⟨b, _, rfl⟩ := List.mem_map.mp h
  · left; rfl
  · right; rfl

lemma kind_blocked (norm : List Norm) :
    ∀ f ∈ blockedPass norm, f.kind = "auth.blocked" := by
  intro f hf
  rw [blockedPass] at hf
  obtain ⟨ev, _, hf2⟩ := List.mem_flatMap.mp hf
  split at hf2
  · rcases List.mem_singleton.mp hf2 with rfl
    rfl
  · cases hf2

lemma kind_highRisk (norm : List Norm) :
    ∀ f ∈ highRiskPass norm,
      f.kind = "auth.high_risk" ∨ f.kind = "auth.tor" := by
  intro f hf
  rw [highRiskPass] at hf
  obtain ⟨ev, _, hf2⟩ := List.mem_flatMap.mp hf
  split at hf2
  · simp only at hf2
    rcases List.mem_singleton.mp hf2 with rfl
    left; rfl
  · split at hf2
    · rcases List.mem_singleton.mp hf2 with rfl
      right; rfl
    · cases hf2

lemma kind_highError (tsorted : List Norm) :
    ∀ f ∈ highErrorPass tsorted, ∃ t, f.kind = "web.error_" ++ t := by
  intro f hf
  rw [highErrorPass] at hf
  obtain ⟨b, _, hf2⟩ := List.mem_flatMap.mp hf
  rw [errBucketFindings] at hf2
  split at hf2
  · cases hf2
  · simp only at hf2
    split at hf2
    · rcases List.mem_singleton.mp hf2 with rfl
      exact ⟨b.1.1, rfl⟩
    · cases hf2

lemma kind_rareUA (norm : List Norm) :
    ∀ f ∈ rareUAPass norm, f.kind = "web.rare_ua" := by
  intro f hf
  obtain ⟨ua, _, _, rfl⟩ := rareUAGo_mem norm (uaCount norm) norm [] f hf
  rfl

lemma kind_offHours (tsorted : List Norm) :
    ∀ f ∈ offHoursPass tsorted, f.kind = "auth.offhours" := by
  intro f hf
  simp only [offHoursPass] at hf
  rcases mem_ite_singleton hf with rfl
  rfl

lemma webError_ne (t s : String) (hs : s.data.head? = some 'a') :
    "web.error_" ++ t ≠ s := by
  intro h
  have hh : (("web.error_" ++ t).data).head? = some 'a' := by rw [h]; exact hs
  rw [String.data_append] at hh
  have h2 : some 'w' = some 'a' := hh
  exact absurd (Option.some.inj h2) (by decide)

/-- Claim C10.  In every `auth.bruteforce_user`, `auth.bruteforce_pair`
and `auth.token_fail_burst` finding of a successful run, `meta.failures`
counts the whole triggering window (id-less events included) while
`meta.event_ids` lists only the present identifiers, so `failures`
dominates the id-list length; and a batch of ten identifier-less 401
events alone reaches the brute-force threshold, yielding both
brute-force findings with `failures = 10` and empty `event_ids`. -/
theorem C10_failures_dominate_ids :
    (∀ (es : List RawEvent) (out : List Finding),
      detect_anomalies es = .ok out → ∀ f ∈ out, BurstKind f → FailGood f) ∧
    detect_anomalies
        (List.replicate 10
          { ts := .tdt ⟨0, none⟩, status := .aint 401, user := some "u" }) =
      .ok
        [⟨"Brute-force suspected against user u", 0.95,
          "auth.bruteforce_user",
          [("window_sec", .pint 120), ("failures", .pint 10),
           ("user", .pstr "u"), ("event_ids", .plist [])]⟩,
         ⟨"Brute-force suspected from <ip?> targeting u", 0.96,
          "auth.bruteforce_pair",
          [("window_sec", .pint 120), ("failures", .pint 10),
           ("user", .pstr "u"), ("src_ip", .pstr "<ip?>"),
           ("event_ids", .plist [])]⟩] := by
  constructor
  · intro es out h f hf hb
    by_cases hemp : es.isEmpty = true
    · rw [detect_anomalies, if_pos hemp] at h
      injection h with h2
      rw [← h2] at hf
      cases hf
    · rw [detect_anomalies, if_neg hemp] at h
      simp only at h
      rcases hts : timeSortedE (es.map normOne) with e | tsorted
      · rw [hts] at h
        simp at h
      · rw [hts] at h
        simp only at h
        injection h with h2
        rw [← h2] at hf
        have hf2 := mem_of_mem_dedup hf
        simp only [List.mem_append] at hf2
        rcases hf2 with ((((((h0 | h1) | h2) | h3) | h4) | h5) | h6) | h7
        · rcases kind_pwdMfa _ f h0 with hk | hk <;>
            rcases hb with h | h | h <;> rw [hk] at h <;> simp at h
        · exact brutePass_acc FailGood fail_bfUser fail_bfPair tsorted f h1
        · rcases hb with h | h | h <;> rw [kind_blocked _ f h2] at h <;>
            simp at h
        · rcases kind_highRisk _ f h3 with hk | hk <;>
            rcases hb with h | h | h <;> rw [hk] at h <;> simp at h
        · obtain ⟨t, hk⟩ := kind_highError _ f h4
          rcases hb with h | h | h <;> rw [hk] at h <;>
            exact absurd h (webError_ne t _ rfl)
        · rcases hb with h | h | h <;> rw [kind_rareUA _ f h5] at h <;>
            simp at h
        · rcases hb with h | h | h <;> rw [kind_offHours _ f h6] at h <;>
            simp at h
        · exact tokenPass_acc FailGood fail_token tsorted f h7
  · rfl

/-- Claim C10, witness: the theorem applied to the ten-event id-less
batch; its bruteforce-user finding has `failures = 10` dominating the
empty `event_ids`. -/
theorem C10_witness :
    FailGood
      ⟨"Brute-force suspected against user u", 0.95, "auth.bruteforce_user",
       [("window_sec", .pint 120), ("failures", .pint 10),
        ("user", .pstr "u"), ("event_ids", .plist [])]⟩ :=
  C10_failures_dominate_ids.1
    (List.replicate 10
      { ts := .tdt ⟨0, none⟩, status := .aint 401, user := some "u" })
    [⟨"Brute-force suspected against user u", 0.95, "auth.bruteforce_user",
      [("window_sec", .pint 120), ("failures", .pint 10),
       ("user", .pstr "u"), ("event_ids", .plist [])]⟩,
     ⟨"Brute-force suspected from <ip?> targeting u", 0.96,
      "auth.bruteforce_pair",
      [("window_sec", .pint 120), ("failures", .pint 10),
       ("user", .pstr "u"), ("src_ip", .pstr "<ip?>"),
       ("event_ids", .plist [])]⟩]
    rfl _ (List.mem_cons_self _ _) (Or.inl rfl)


/-! ## Claim C2 (the twelve-event brute-force scenario) -/

lemma insSorted_append (le : α → α → Bool) (x : α) :
    ∀ l : List α, (∀ y ∈ l, le y x = true) → insSorted le x l = l ++ [x] := by
  intro l
  induction l with
  | nil => intro _; rfl
  | cons y ys ih =>
      intro h
      rw [insSorted, if_pos (h y (List.mem_cons_self y ys)),
        ih (fun z hz => h z (List.mem_cons_of_mem y hz))]
      rfl

lemma foldl_ins_of_sorted (le : α → α → Bool) :
    ∀ l acc : List α,
      (∀ b ∈ l, ∀ a ∈ acc, le a b = true) →
      l.Pairwise (fun a b => le a b = true) →
      l.foldl (fun acc x => insSorted le x acc) acc = acc ++ l := by
  intro l
  induction l with
  | nil => intro acc _ _; simp
  | cons x xs ih =>
      intro acc hcross hpw
      rw [List.foldl_cons,
        insSorted_append le x acc (fun y hy => hcross x (List.mem_cons_self x xs) y hy)]
      rw [ih (acc ++ [x]) ?_ (List.pairwise_cons.mp hpw).2]
      · simp
      · intro b hb a ha
        rcases List.mem_append.mp ha with h | h
        · exact hcross b (List.mem_cons_of_mem _ hb) a h
        · rcases List.mem_singleton.mp h with rfl
          exact (List.pairwise_cons.mp hpw).1 b hb

lemma isort_of_sorted (le : α → α → Bool) (l : List α)
    (h : l.Pairwise (fun a b => le a b = true)) : isort le l = l := by
  rw [isort, foldl_ins_of_sorted le l [] (by simp) h]
  rfl

/-- A raw event of the claim-C2 scenario: status 401, a fixed user and
source ip, a naive timestamp `t` and an event id. -/
def c2ev (u ip : String) (t eid : Int) : RawEvent :=
  { ts := .tdt ⟨t, none⟩, status := .aint 401,
    src_ip := some ip, user := some u, event_id := some eid }

/-- The normalized form of `c2ev` (everything else empty). -/
def c2n (u ip : String) (t eid : Int) : Norm :=
  ⟨some ⟨t, none⟩, some 401, ip, u, "", "", "", "", "", some eid⟩


lemma c2_normOne (u ip : String) (t eid : Int) :
    normOne (c2ev u ip t eid) = c2n u ip t eid := rfl

lemma kindP_resp (s : String) (f g : Finding) (h : findingKey f = findingKey g) :
    (f.kind == s) = (g.kind == s) := by
  rw [show f.kind = g.kind from congrArg Prod.fst h]

lemma kind_token (tsorted : List Norm) :
    ∀ f ∈ tokenPass tsorted, f.kind = "auth.token_fail_burst" :=
  tokenPass_acc (fun f => f.kind = "auth.token_fail_burst")
    (fun _ _ => rfl) tsorted

/-- Claim C2.  For every batch of 12 events with the same (nonempty)
user and source address, status 401, and timestamps one second apart,
`detect_anomalies` emits exactly one `auth.bruteforce_user` and exactly
one `auth.bruteforce_pair` finding, each with `meta.failures = 10` and
`meta.event_ids` equal to the first ten event identifiers in arrival
order; the final two events after the window clear retrigger nothing. -/
theorem C2_twelve_event_scenario (u ip : String) (hu : u ≠ "") (hip : ip ≠ "")
    (t0 i0 i1 i2 i3 i4 i5 i6 i7 i8 i9 i10 i11 : Int) :
    ∃ (out : List Finding) (fu fp : Finding),
      detect_anomalies
        [c2ev u ip t0 i0,
       c2ev u ip (t0+1) i1,
       c2ev u ip (t0+2) i2,
       c2ev u ip (t0+3) i3,
       c2ev u ip (t0+4) i4,
       c2ev u ip (t0+5) i5,
       c2ev u ip (t0+6) i6,
       c2ev u ip (t0+7) i7,
       c2ev u ip (t0+8) i8,
       c2ev u ip (t0+9) i9,
       c2ev u ip (t0+10) i10,
       c2ev u ip (t0+11) i11] = .ok out ∧
      out.filter (fun f => f.kind == "auth.bruteforce_user") = [fu] ∧
      out.filter (fun f => f.kind == "auth.bruteforce_pair") = [fp] ∧
      fu.meta.lookup "failures" = some (.pint 10) ∧
      fu.meta.lookup "event_ids" = some (.plist [.pint i0, .pint i1, .pint i2, .pint i3, .pint i4, .pint i5, .pint i6, .pint i7, .pint i8, .pint i9]) ∧
      fp.meta.lookup "failures" = some (.pint 10) ∧
      fp.meta.lookup "event_ids" = some (.plist [.pint i0, .pint i1, .pint i2, .pint i3, .pint i4, .pint i5, .pint i6, .pint i7, .pint i8, .pint i9]) := by
  have hpw :
      ([c2n u ip t0 i0,
       c2n u ip (t0+1) i1,
       c2n u ip (t0+2) i2,
       c2n u ip (t0+3) i3,
       c2n u ip (t0+4) i4,
       c2n u ip (t0+5) i5,
       c2n u ip (t0+6) i6,
       c2n u ip (t0+7) i7,
       c2n u ip (t0+8) i8,
       c2n u ip (t0+9) i9,
       c2n u ip (t0+10) i10,
       c2n u ip (t0+11) i11] : List Norm).Pairwise (fun a b =>
        decide ((a.ts.map DateTime.key).getD 0 ≤
          (b.ts.map DateTime.key).getD 0) = true) := by
    simp [c2n, DateTime.key]
  have hs : isort (fun a b =>
        decide ((a.ts.map DateTime.key).getD 0 ≤ (b.ts.map DateTime.key).getD 0))
      (([c2n u ip t0 i0,
       c2n u ip (t0+1) i1,
       c2n u ip (t0+2) i2,
       c2n u ip (t0+3) i3,
       c2n u ip (t0+4) i4,
       c2n u ip (t0+5) i5,
       c2n u ip (t0+6) i6,
       c2n u ip (t0+7) i7,
       c2n u ip (t0+8) i8,
       c2n u ip (t0+9) i9,
       c2n u ip (t0+10) i10,
       c2n u ip (t0+11) i11] : List Norm).filter (fun e => e.ts.isSome)) =
      [c2n u ip t0 i0,
       c2n u ip (t0+1) i1,
       c2n u ip (t0+2) i2,
       c2n u ip (t0+3) i3,
       c2n u ip (t0+4) i4,
       c2n u ip (t0+5) i5,
       c2n u ip (t0+6) i6,
       c2n u ip (t0+7) i7,
       c2n u ip (t0+8) i8,
       c2n u ip (t0+9) i9,
       c2n u ip (t0+10) i10,
       c2n u ip (t0+11) i11] := by
    rw [show ([c2n u ip t0 i0,
       c2n u ip (t0+1) i1,
       c2n u ip (t0+2) i2,
       c2n u ip (t0+3) i3,
       c2n u ip (t0+4) i4,
       c2n u ip (t0+5) i5,
       c2n u ip (t0+6) i6,
       c2n u ip (t0+7) i7,
       c2n u ip (t0+8) i8,
       c2n u ip (t0+9) i9,
       c2n u ip (t0+10) i10,
       c2n u ip (t0+11) i11] : List Norm).filter (fun e => e.ts.isSome) =
      [c2n u ip t0 i0,
       c2n u ip (t0+1) i1,
       c2n u ip (t0+2) i2,
       c2n u ip (t0+3) i3,
       c2n u ip (t0+4) i4,
       c2n u ip (t0+5) i5,
       c2n u ip (t0+6) i6,
       c2n u ip (t0+7) i7,
       c2n u ip (t0+8) i8,
       c2n u ip (t0+9) i9,
       c2n u ip (t0+10) i10,
       c2n u ip (t0+11) i11] from rfl]
    exact isort_of_sorted _ _ hpw
  have hdet : detect_anomalies
      [c2ev u ip t0 i0,
       c2ev u ip (t0+1) i1,
       c2ev u ip (t0+2) i2,
       c2ev u ip (t0+3) i3,
       c2ev u ip (t0+4) i4,
       c2ev u ip (t0+5) i5,
       c2ev u ip (t0+6) i6,
       c2ev u ip (t0+7) i7,
       c2ev u ip (t0+8) i8,
       c2ev u ip (t0+9) i9,
       c2ev u ip (t0+10) i10,
       c2ev u ip (t0+11) i11] =
      .ok (dedupFindings
        (pwdMfaPass [c2n u ip t0 i0,
       c2n u ip (t0+1) i1,
       c2n u ip (t0+2) i2,
       c2n u ip (t0+3) i3,
       c2n u ip (t0+4) i4,
       c2n u ip (t0+5) i5,
       c2n u ip (t0+6) i6,
       c2n u ip (t0+7) i7,
       c2n u ip (t0+8) i8,
       c2n u ip (t0+9) i9,
       c2n u ip (t0+10) i10,
       c2n u ip (t0+11) i11] ++
         brutePass (isort (fun a b =>
        decide ((a.ts.map DateTime.key).getD 0 ≤ (b.ts.map DateTime.key).getD 0))
           (([c2n u ip t0 i0,
       c2n u ip (t0+1) i1,
       c2n u ip (t0+2) i2,
       c2n u ip (t0+3) i3,
       c2n u ip (t0+4) i4,
       c2n u ip (t0+5) i5,
       c2n u ip (t0+6) i6,
       c2n u ip (t0+7) i7,
       c2n u ip (t0+8) i8,
       c2n u ip (t0+9) i9,
       c2n u ip (t0+10) i10,
       c2n u ip (t0+11) i11] : List Norm).filter (fun e => e.ts.isSome))) ++
         blockedPass [c2n u ip t0 i0,
       c2n u ip (t0+1) i1,
       c2n u ip (t0+2) i2,
       c2n u ip (t0+3) i3,
       c2n u ip (t0+4) i4,
       c2n u ip (t0+5) i5,
       c2n u ip (t0+6) i6,
       c2n u ip (t0+7) i7,
       c2n u ip (t0+8) i8,
       c2n u ip (t0+9) i9,
       c2n u ip (t0+10) i10,
       c2n u ip (t0+11) i11] ++
         highRiskPass [c2n u ip t0 i0,
       c2n u ip (t0+1) i1,
       c2n u ip (t0+2) i2,
       c2n u ip (t0+3) i3,
       c2n u ip (t0+4) i4,
       c2n u ip (t0+5) i5,
       c2n u ip (t0+6) i6,
       c2n u ip (t0+7) i7,
       c2n u ip (t0+8) i8,
       c2n u ip (t0+9) i9,
       c2n u ip (t0+10) i10,
       c2n u ip (t0+11) i11] ++
         highErrorPass (isort (fun a b =>
        decide ((a.ts.map DateTime.key).getD 0 ≤ (b.ts.map DateTime.key).getD 0))
           (([c2n u ip t0 i0,
       c2n u ip (t0+1) i1,
       c2n u ip (t0+2) i2,
       c2n u ip (t0+3) i3,
       c2n u ip (t0+4) i4,
       c2n u ip (t0+5) i5,
       c2n u ip (t0+6) i6,
       c2n u ip (t0+7) i7,
       c2n u ip (t0+8) i8,
       c2n u ip (t0+9) i9,
       c2n u ip (t0+10) i10,
       c2n u ip (t0+11) i11] : List Norm).filter (fun e => e.ts.isSome))) ++
         rareUAPass [c2n u ip t0 i0,
       c2n u ip (t0+1) i1,
       c2n u ip (t0+2) i2,
       c2n u ip (t0+3) i3,
       c2n u ip (t0+4) i4,
       c2n u ip (t0+5) i5,
       c2n u ip (t0+6) i6,
       c2n u ip (t0+7) i7,
       c2n u ip (t0+8) i8,
       c2n u ip (t0+9) i9,
       c2n u ip (t0+10) i10,
       c2n u ip (t0+11) i11] ++
         offHoursPass (isort (fun a b =>
        decide ((a.ts.map DateTime.key).getD 0 ≤ (b.ts.map DateTime.key).getD 0))
           (([c2n u ip t0 i0,
       c2n u ip (t0+1) i1,
       c2n u ip (t0+2) i2,
       c2n u ip (t0+3) i3,
       c2n u ip (t0+4) i4,
       c2n u ip (t0+5) i5,
       c2n u ip (t0+6) i6,
       c2n u ip (t0+7) i7,
       c2n u ip (t0+8) i8,
       c2n u ip (t0+9) i9,
       c2n u ip (t0+10) i10,
       c2n u ip (t0+11) i11] : List Norm).filter (fun e => e.ts.isSome))) ++
         tokenPass (isort (fun a b =>
        decide ((a.ts.map DateTime.key).getD 0 ≤ (b.ts.map DateTime.key).getD 0))
           (([c2n u ip t0 i0,
       c2n u ip (t0+1) i1,
       c2n u ip (t0+2) i2,
       c2n u ip (t0+3) i3,
       c2n u ip (t0+4) i4,
       c2n u ip (t0+5) i5,
       c2n u ip (t0+6) i6,
       c2n u ip (t0+7) i7,
       c2n u ip (t0+8) i8,
       c2n u ip (t0+9) i9,
       c2n u ip (t0+10) i10,
       c2n u ip (t0+11) i11] : List Norm).filter (fun e => e.ts.isSome))))) := rfl
  rw [hs] at hdet
  have hbrute : brutePass [c2n u ip t0 i0,
       c2n u ip (t0+1) i1,
       c2n u ip (t0+2) i2,
       c2n u ip (t0+3) i3,
       c2n u ip (t0+4) i4,
       c2n u ip (t0+5) i5,
       c2n u ip (t0+6) i6,
       c2n u ip (t0+7) i7,
       c2n u ip (t0+8) i8,
       c2n u ip (t0+9) i9,
       c2n u ip (t0+10) i10,
       c2n u ip (t0+11) i11] =
      [bfUserFinding u [⟨t0, some i0⟩, ⟨t0+1, some i1⟩, ⟨t0+2, some i2⟩, ⟨t0+3, some i3⟩, ⟨t0+4, some i4⟩, ⟨t0+5, some i5⟩, ⟨t0+6, some i6⟩, ⟨t0+7, some i7⟩, ⟨t0+8, some i8⟩, ⟨t0+9, some i9⟩],
       bfPairFinding u ip [⟨t0, some i0⟩, ⟨t0+1, some i1⟩, ⟨t0+2, some i2⟩, ⟨t0+3, some i3⟩, ⟨t0+4, some i4⟩, ⟨t0+5, some i5⟩, ⟨t0+6, some i6⟩, ⟨t0+7, some i7⟩, ⟨t0+8, some i8⟩, ⟨t0+9, some i9⟩]] := by
    simp [brutePass, bruteStep, c2n, hu, hip, evictOld, lookupD, setKV,
      DateTime.key]
  have h0u : (pwdMfaPass [c2n u ip t0 i0,
       c2n u ip (t0+1) i1,
       c2n u ip (t0+2) i2,
       c2n u ip (t0+3) i3,
       c2n u ip (t0+4) i4,
       c2n u ip (t0+5) i5,
       c2n u ip (t0+6) i6,
       c2n u ip (t0+7) i7,
       c2n u ip (t0+8) i8,
       c2n u ip (t0+9) i9,
       c2n u ip (t0+10) i10,
       c2n u ip (t0+11) i11]).filter
      (fun f => f.kind == "auth.bruteforce_user") = [] :=
    List.filter_eq_nil_iff.mpr (fun f hf => by
      rcases kind_pwdMfa _ f hf with hk | hk <;> simp [hk])
  have h2u : (blockedPass [c2n u ip t0 i0,
       c2n u ip (t0+1) i1,
       c2n u ip (t0+2) i2,
       c2n u ip (t0+3) i3,
       c2n u ip (t0+4) i4,
       c2n u ip (t0+5) i5,
       c2n u ip (t0+6) i6,
       c2n u ip (t0+7) i7,
       c2n u ip (t0+8) i8,
       c2n u ip (t0+9) i9,
       c2n u ip (t0+10) i10,
       c2n u ip (t0+11) i11]).filter
      (fun f => f.kind == "auth.bruteforce_user") = [] :=
    List.filter_eq_nil_iff.mpr (fun f hf => by simp [kind_blocked _ f hf])
  have h3u : (highRiskPass [c2n u ip t0 i0,
       c2n u ip (t0+1) i1,
       c2n u ip (t0+2) i2,
       c2n u ip (t0+3) i3,
       c2n u ip (t0+4) i4,
       c2n u ip (t0+5) i5,
       c2n u ip (t0+6) i6,
       c2n u ip (t0+7) i7,
       c2n u ip (t0+8) i8,
       c2n u ip (t0+9) i9,
       c2n u ip (t0+10) i10,
       c2n u ip (t0+11) i11]).filter
      (fun f => f.kind == "auth.bruteforce_user") = [] :=
    List.filter_eq_nil_iff.mpr (fun f hf => by
      rcases kind_highRisk _ f hf with hk | hk <;> simp [hk])
  have h4u : (highErrorPass [c2n u ip t0 i0,
       c2n u ip (t0+1) i1,
       c2n u ip (t0+2) i2,
       c2n u ip (t0+3) i3,
       c2n u ip (t0+4) i4,
       c2n u ip (t0+5) i5,
       c2n u ip (t0+6) i6,
       c2n u ip (t0+7) i7,
       c2n u ip (t0+8) i8,
       c2n u ip (t0+9) i9,
       c2n u ip (t0+10) i10,
       c2n u ip (t0+11) i11]).filter
      (fun f => f.kind == "auth.bruteforce_user") = [] :=
    List.filter_eq_nil_iff.mpr (fun f hf => by
      obtain ⟨t, hk⟩ := kind_highError _ f hf
      simp only [hk, beq_iff_eq]
      exact webError_ne t _ rfl)
  have h5u : (rareUAPass [c2n u ip t0 i0,
       c2n u ip (t0+1) i1,
       c2n u ip (t0+2) i2,
       c2n u ip (t0+3) i3,
       c2n u ip (t0+4) i4,
       c2n u ip (t0+5) i5,
       c2n u ip (t0+6) i6,
       c2n u ip (t0+7) i7,
       c2n u ip (t0+8) i8,
       c2n u ip (t0+9) i9,
       c2n u ip (t0+10) i10,
       c2n u ip (t0+11) i11]).filter
      (fun f => f.kind == "auth.bruteforce_user") = [] :=
    List.filter_eq_nil_iff.mpr (fun f hf => by simp [kind_rareUA _ f hf])
  have h6u : (offHoursPass [c2n u ip t0 i0,
       c2n u ip (t0+1) i1,
       c2n u ip (t0+2) i2,
       c2n u ip (t0+3) i3,
       c2n u ip (t0+4) i4,
       c2n u ip (t0+5) i5,
       c2n u ip (t0+6) i6,
       c2n u ip (t0+7) i7,
       c2n u ip (t0+8) i8,
       c2n u ip (t0+9) i9,
       c2n u ip (t0+10) i10,
       c2n u ip (t0+11) i11]).filter
      (fun f => f.kind == "auth.bruteforce_user") = [] :=
    List.filter_eq_nil_iff.mpr (fun f hf => by simp [kind_offHours _ f hf])
  have h7u : (tokenPass [c2n u ip t0 i0,
       c2n u ip (t0+1) i1,
       c2n u ip (t0+2) i2,
       c2n u ip (t0+3) i3,
       c2n u ip (t0+4) i4,
       c2n u ip (t0+5) i5,
       c2n u ip (t0+6) i6,
       c2n u ip (t0+7) i7,
       c2n u ip (t0+8) i8,
       c2n u ip (t0+9) i9,
       c2n u ip (t0+10) i10,
       c2n u ip (t0+11) i11]).filter
      (fun f => f.kind == "auth.bruteforce_user") = [] :=
    List.filter_eq_nil_iff.mpr (fun f hf => by simp [kind_token _ f hf])
  have h0p : (pwdMfaPass [c2n u ip t0 i0,
       c2n u ip (t0+1) i1,
       c2n u ip (t0+2) i2,
       c2n u ip (t0+3) i3,
       c2n u ip (t0+4) i4,
       c2n u ip (t0+5) i5,
       c2n u ip (t0+6) i6,
       c2n u ip (t0+7) i7,
       c2n u ip (t0+8) i8,
       c2n u ip (t0+9) i9,
       c2n u ip (t0+10) i10,
       c2n u ip (t0+11) i11]).filter
      (fun f => f.kind == "auth.bruteforce_pair") = [] :=
    List.filter_eq_nil_iff.mpr (fun f hf => by
      rcases kind_pwdMfa _ f hf with hk | hk <;> simp [hk])
  have h2p : (blockedPass [c2n u ip t0 i0,
       c2n u ip (t0+1) i1,
       c2n u ip (t0+2) i2,
       c2n u ip (t0+3) i3,
       c2n u ip (t0+4) i4,
       c2n u ip (t0+5) i5,
       c2n u ip (t0+6) i6,
       c2n u ip (t0+7) i7,
       c2n u ip (t0+8) i8,
       c2n u ip (t0+9) i9,
       c2n u ip (t0+10) i10,
       c2n u ip (t0+11) i11]).filter
      (fun f => f.kind == "auth.bruteforce_pair") = [] :=
    List.filter_eq_nil_iff.mpr (fun f hf => by simp [kind_blocked _ f hf])
  have h3p : (highRiskPass [c2n u ip t0 i0,
       c2n u ip (t0+1) i1,
       c2n u ip (t0+2) i2,
       c2n u ip (t0+3) i3,
       c2n u ip (t0+4) i4,
       c2n u ip (t0+5) i5,
       c2n u ip (t0+6) i6,
       c2n u ip (t0+7) i7,
       c2n u ip (t0+8) i8,
       c2n u ip (t0+9) i9,
       c2n u ip (t0+10) i10,
       c2n u ip (t0+11) i11]).filter
      (fun f => f.kind == "auth.bruteforce_pair") = [] :=
    List.filter_eq_nil_iff.mpr (fun f hf => by
      rcases kind_highRisk _ f hf with hk | hk <;> simp [hk])
  have h4p : (highErrorPass [c2n u ip t0 i0,
       c2n u ip (t0+1) i1,
       c2n u ip (t0+2) i2,
       c2n u ip (t0+3) i3,
       c2n u ip (t0+4) i4,
       c2n u ip (t0+5) i5,
       c2n u ip (t0+6) i6,
       c2n u ip (t0+7) i7,
       c2n u ip (t0+8) i8,
       c2n u ip (t0+9) i9,
       c2n u ip (t0+10) i10,
       c2n u ip (t0+11) i11]).filter
      (fun f => f.kind == "auth.bruteforce_pair") = [] :=
    List.filter_eq_nil_iff.mpr (fun f hf => by
      obtain ⟨t, hk⟩ := kind_highError _ f hf
      simp only [hk, beq_iff_eq]
      exact webError_ne t _ rfl)
  have h5p : (rareUAPass [c2n u ip t0 i0,
       c2n u ip (t0+1) i1,
       c2n u ip (t0+2) i2,
       c2n u ip (t0+3) i3,
       c2n u ip (t0+4) i4,
       c2n u ip (t0+5) i5,
       c2n u ip (t0+6) i6,
       c2n u ip (t0+7) i7,
       c2n u ip (t0+8) i8,
       c2n u ip (t0+9) i9,
       c2n u ip (t0+10) i10,
       c2n u ip (t0+11) i11]).filter
      (fun f => f.kind == "auth.bruteforce_pair") = [] :=
    List.filter_eq_nil_iff.mpr (fun f hf => by simp [kind_rareUA _ f hf])
  have h6p : (offHoursPass [c2n u ip t0 i0,
       c2n u ip (t0+1) i1,
       c2n u ip (t0+2) i2,
       c2n u ip (t0+3) i3,
       c2n u ip (t0+4) i4,
       c2n u ip (t0+5) i5,
       c2n u ip (t0+6) i6,
       c2n u ip (t0+7) i7,
       c2n u ip (t0+8) i8,
       c2n u ip (t0+9) i9,
       c2n u ip (t0+10) i10,
       c2n u ip (t0+11) i11]).filter
      (fun f => f.kind == "auth.bruteforce_pair") = [] :=
    List.filter_eq_nil_iff.mpr (fun f hf => by simp [kind_offHours _ f hf])
  have h7p : (tokenPass [c2n u ip t0 i0,
       c2n u ip (t0+1) i1,
       c2n u ip (t0+2) i2,
       c2n u ip (t0+3) i3,
       c2n u ip (t0+4) i4,
       c2n u ip (t0+5) i5,
       c2n u ip (t0+6) i6,
       c2n u ip (t0+7) i7,
       c2n u ip (t0+8) i8,
       c2n u ip (t0+9) i9,
       c2n u ip (t0+10) i10,
       c2n u ip (t0+11) i11]).filter
      (fun f => f.kind == "auth.bruteforce_pair") = [] :=
    List.filter_eq_nil_iff.mpr (fun f hf => by simp [kind_token _ f hf])
  have happu : ((pwdMfaPass [c2n u ip t0 i0,
       c2n u ip (t0+1) i1,
       c2n u ip (t0+2) i2,
       c2n u ip (t0+3) i3,
       c2n u ip (t0+4) i4,
       c2n u ip (t0+5) i5,
       c2n u ip (t0+6) i6,
       c2n u ip (t0+7) i7,
       c2n u ip (t0+8) i8,
       c2n u ip (t0+9) i9,
       c2n u ip (t0+10) i10,
       c2n u ip (t0+11) i11] ++ brutePass [c2n u ip t0 i0,
       c2n u ip (t0+1) i1,
       c2n u ip (t0+2) i2,
       c2n u ip (t0+3) i3,
       c2n u ip (t0+4) i4,
       c2n u ip (t0+5) i5,
       c2n u ip (t0+6) i6,
       c2n u ip (t0+7) i7,
       c2n u ip (t0+8) i8,
       c2n u ip (t0+9) i9,
       c2n u ip (t0+10) i10,
       c2n u ip (t0+11) i11] ++
      blockedPass [c2n u ip t0 i0,
       c2n u ip (t0+1) i1,
       c2n u ip (t0+2) i2,
       c2n u ip (t0+3) i3,
       c2n u ip (t0+4) i4,
       c2n u ip (t0+5) i5,
       c2n u ip (t0+6) i6,
       c2n u ip (t0+7) i7,
       c2n u ip (t0+8) i8,
       c2n u ip (t0+9) i9,
       c2n u ip (t0+10) i10,
       c2n u ip (t0+11) i11] ++ highRiskPass [c2n u ip t0 i0,
       c2n u ip (t0+1) i1,
       c2n u ip (t0+2) i2,
       c2n u ip (t0+3) i3,
       c2n u ip (t0+4) i4,
       c2n u ip (t0+5) i5,
       c2n u ip (t0+6) i6,
       c2n u ip (t0+7) i7,
       c2n u ip (t0+8) i8,
       c2n u ip (t0+9) i9,
       c2n u ip (t0+10) i10,
       c2n u ip (t0+11) i11] ++
      highErrorPass [c2n u ip t0 i0,
       c2n u ip (t0+1) i1,
       c2n u ip (t0+2) i2,
       c2n u ip (t0+3) i3,
       c2n u ip (t0+4) i4,
       c2n u ip (t0+5) i5,
       c2n u ip (t0+6) i6,
       c2n u ip (t0+7) i7,
       c2n u ip (t0+8) i8,
       c2n u ip (t0+9) i9,
       c2n u ip (t0+10) i10,
       c2n u ip (t0+11) i11] ++ rareUAPass [c2n u ip t0 i0,
       c2n u ip (t0+1) i1,
       c2n u ip (t0+2) i2,
       c2n u ip (t0+3) i3,
       c2n u ip (t0+4) i4,
       c2n u ip (t0+5) i5,
       c2n u ip (t0+6) i6,
       c2n u ip (t0+7) i7,
       c2n u ip (t0+8) i8,
       c2n u ip (t0+9) i9,
       c2n u ip (t0+10) i10,
       c2n u ip (t0+11) i11] ++
      offHoursPass [c2n u ip t0 i0,
       c2n u ip (t0+1) i1,
       c2n u ip (t0+2) i2,
       c2n u ip (t0+3) i3,
       c2n u ip (t0+4) i4,
       c2n u ip (t0+5) i5,
       c2n u ip (t0+6) i6,
       c2n u ip (t0+7) i7,
       c2n u ip (t0+8) i8,
       c2n u ip (t0+9) i9,
       c2n u ip (t0+10) i10,
       c2n u ip (t0+11) i11] ++ tokenPass [c2n u ip t0 i0,
       c2n u ip (t0+1) i1,
       c2n u ip (t0+2) i2,
       c2n u ip (t0+3) i3,
       c2n u ip (t0+4) i4,
       c2n u ip (t0+5) i5,
       c2n u ip (t0+6) i6,
       c2n u ip (t0+7) i7,
       c2n u ip (t0+8) i8,
       c2n u ip (t0+9) i9,
       c2n u ip (t0+10) i10,
       c2n u ip (t0+11) i11]).filter
        (fun f => f.kind == "auth.bruteforce_user")) =
      [bfUserFinding u [⟨t0, some i0⟩, ⟨t0+1, some i1⟩, ⟨t0+2, some i2⟩, ⟨t0+3, some i3⟩, ⟨t0+4, some i4⟩, ⟨t0+5, some i5⟩, ⟨t0+6, some i6⟩, ⟨t0+7, some i7⟩, ⟨t0+8, some i8⟩, ⟨t0+9, some i9⟩]] := by
    simp only [List.filter_append, h0u, h2u, h3u, h4u, h5u, h6u, h7u, hbrute,
      List.append_nil, List.nil_append]
    rfl
  have happp : ((pwdMfaPass [c2n u ip t0 i0,
       c2n u ip (t0+1) i1,
       c2n u ip (t0+2) i2,
       c2n u ip (t0+3) i3,
       c2n u ip (t0+4) i4,
       c2n u ip (t0+5) i5,
       c2n u ip (t0+6) i6,
       c2n u ip (t0+7) i7,
       c2n u ip (t0+8) i8,
       c2n u ip (t0+9) i9,
       c2n u ip (t0+10) i10,
       c2n u ip (t0+11) i11] ++ brutePass [c2n u ip t0 i0,
       c2n u ip (t0+1) i1,
       c2n u ip (t0+2) i2,
       c2n u ip (t0+3) i3,
       c2n u ip (t0+4) i4,
       c2n u ip (t0+5) i5,
       c2n u ip (t0+6) i6,
       c2n u ip (t0+7) i7,
       c2n u ip (t0+8) i8,
       c2n u ip (t0+9) i9,
       c2n u ip (t0+10) i10,
       c2n u ip (t0+11) i11] ++
      blockedPass [c2n u ip t0 i0,
       c2n u ip (t0+1) i1,
       c2n u ip (t0+2) i2,
       c2n u ip (t0+3) i3,
       c2n u ip (t0+4) i4,
       c2n u ip (t0+5) i5,
       c2n u ip (t0+6) i6,
       c2n u ip (t0+7) i7,
       c2n u ip (t0+8) i8,
       c2n u ip (t0+9) i9,
       c2n u ip (t0+10) i10,
       c2n u ip (t0+11) i11] ++ highRiskPass [c2n u ip t0 i0,
       c2n u ip (t0+1) i1,
       c2n u ip (t0+2) i2,
       c2n u ip (t0+3) i3,
       c2n u ip (t0+4) i4,
       c2n u ip (t0+5) i5,
       c2n u ip (t0+6) i6,
       c2n u ip (t0+7) i7,
       c2n u ip (t0+8) i8,
       c2n u ip (t0+9) i9,
       c2n u ip (t0+10) i10,
       c2n u ip (t0+11) i11] ++
      highErrorPass [c2n u ip t0 i0,
       c2n u ip (t0+1) i1,
       c2n u ip (t0+2) i2,
       c2n u ip (t0+3) i3,
       c2n u ip (t0+4) i4,
       c2n u ip (t0+5) i5,
       c2n u ip (t0+6) i6,
       c2n u ip (t0+7) i7,
       c2n u ip (t0+8) i8,
       c2n u ip (t0+9) i9,
       c2n u ip (t0+10) i10,
       c2n u ip (t0+11) i11] ++ rareUAPass [c2n u ip t0 i0,
       c2n u ip (t0+1) i1,
       c2n u ip (t0+2) i2,
       c2n u ip (t0+3) i3,
       c2n u ip (t0+4) i4,
       c2n u ip (t0+5) i5,
       c2n u ip (t0+6) i6,
       c2n u ip (t0+7) i7,
       c2n u ip (t0+8) i8,
       c2n u ip (t0+9) i9,
       c2n u ip (t0+10) i10,
       c2n u ip (t0+11) i11] ++
      offHoursPass [c2n u ip t0 i0,
       c2n u ip (t0+1) i1,
       c2n u ip (t0+2) i2,
       c2n u ip (t0+3) i3,
       c2n u ip (t0+4) i4,
       c2n u ip (t0+5) i5,
       c2n u ip (t0+6) i6,
       c2n u ip (t0+7) i7,
       c2n u ip (t0+8) i8,
       c2n u ip (t0+9) i9,
       c2n u ip (t0+10) i10,
       c2n u ip (t0+11) i11] ++ tokenPass [c2n u ip t0 i0,
       c2n u ip (t0+1) i1,
       c2n u ip (t0+2) i2,
       c2n u ip (t0+3) i3,
       c2n u ip (t0+4) i4,
       c2n u ip (t0+5) i5,
       c2n u ip (t0+6) i6,
       c2n u ip (t0+7) i7,
       c2n u ip (t0+8) i8,
       c2n u ip (t0+9) i9,
       c2n u ip (t0+10) i10,
       c2n u ip (t0+11) i11]).filter
        (fun f => f.kind == "auth.bruteforce_pair")) =
      [bfPairFinding u ip [⟨t0, some i0⟩, ⟨t0+1, some i1⟩, ⟨t0+2, some i2⟩, ⟨t0+3, some i3⟩, ⟨t0+4, some i4⟩, ⟨t0+5, some i5⟩, ⟨t0+6, some i6⟩, ⟨t0+7, some i7⟩, ⟨t0+8, some i8⟩, ⟨t0+9, some i9⟩]] := by
    simp only [List.filter_append, h0p, h2p, h3p, h4p, h5p, h6p, h7p, hbrute,
      List.append_nil, List.nil_append]
    rfl
  refine ⟨_, bfUserFinding u [⟨t0, some i0⟩, ⟨t0+1, some i1⟩, ⟨t0+2, some i2⟩, ⟨t0+3, some i3⟩, ⟨t0+4, some i4⟩, ⟨t0+5, some i5⟩, ⟨t0+6, some i6⟩, ⟨t0+7, some i7⟩, ⟨t0+8, some i8⟩, ⟨t0+9, some i9⟩],
    bfPairFinding u ip [⟨t0, some i0⟩, ⟨t0+1, some i1⟩, ⟨t0+2, some i2⟩, ⟨t0+3, some i3⟩, ⟨t0+4, some i4⟩, ⟨t0+5, some i5⟩, ⟨t0+6, some i6⟩, ⟨t0+7, some i7⟩, ⟨t0+8, some i8⟩, ⟨t0+9, some i9⟩], hdet, ?_, ?_, rfl, rfl, rfl, rfl⟩
  · exact (dedupFindings_filter _ (kindP_resp "auth.bruteforce_user") _
      (by rw [happu]; simp)).trans happu
  · exact (dedupFindings_filter _ (kindP_resp "auth.bruteforce_pair") _
      (by rw [happp]; simp)).trans happp

/-- Claim C2, witness: the scenario theorem applied at a concrete user,
address, start time and identifiers. -/
theorem C2_witness :
    ∃ (out : List Finding) (fu fp : Finding),
      detect_anomalies
        [c2ev "alice" "1.2.3.4" 0 1,
       c2ev "alice" "1.2.3.4" (0+1) 2,
       c2ev "alice" "1.2.3.4" (0+2) 3,
       c2ev "alice" "1.2.3.4" (0+3) 4,
       c2ev "alice" "1.2.3.4" (0+4) 5,
       c2ev "alice" "1.2.3.4" (0+5) 6,
       c2ev "alice" "1.2.3.4" (0+6) 7,
       c2ev "alice" "1.2.3.4" (0+7) 8,
       c2ev "alice" "1.2.3.4" (0+8) 9,
       c2ev "alice" "1.2.3.4" (0+9) 10,
       c2ev "alice" "1.2.3.4" (0+10) 11,
       c2ev "alice" "1.2.3.4" (0+11) 12] = .ok out ∧
      out.filter (fun f => f.kind == "auth.bruteforce_user") = [fu] ∧
      out.filter (fun f => f.kind == "auth.bruteforce_pair") = [fp] ∧
      fu.meta.lookup "failures" = some (.pint 10) ∧
      fu.meta.lookup "event_ids" = some (.plist [.pint 1, .pint 2, .pint 3, .pint 4, .pint 5, .pint 6, .pint 7, .pint 8, .pint 9, .pint 10]) ∧
      fp.meta.lookup "failures" = some (.pint 10) ∧
      fp.meta.lookup "event_ids" = some (.plist [.pint 1, .pint 2, .pint 3, .pint 4, .pint 5, .pint 6, .pint 7, .pint 8, .pint 9, .pint 10]) :=
  C2_twelve_event_scenario "alice" "1.2.3.4" (by decide) (by decide)
    0 1 2 3 4 5 6 7 8 9 10 11 12

end WarpTrace
